import Mathlib

/-!
# ddccontrol: the DDC/CI protocol engine of `src/lib/ddcci.c`

A shallow embedding of the frame codec (`ddcci_write`, `ddcci_read`), the bus
timer (`ddcci_delay`), the control read (`ddcci_readctrl`), the capability
loop (`ddcci_caps`), the identity read (`ddcci_read_edid`), the connection
lifecycle (`ddcci_open`, `ddcci_close`) and the enumeration (`ddcci_probe`),
followed by theorems about them.

Conventions of the embedding.

* A byte (`unsigned char`) is a `Nat` in `0..255`; a byte buffer is a `List Nat`.
  A store of a wider value into an `unsigned char` is written `% 256`.
* `unsigned int` arithmetic is written `% 2 ^ 32`, `unsigned long` is 64 bits wide.
* Every system call (`gettimeofday`, the `ioctl` behind `i2c_write` and `i2c_read`)
  is an argument of the function that makes it: the value the call returned and,
  for a read, the bytes it left in the receive buffer.
* Every `return -1` site of a function is a separate constructor of its error
  type, so that the path taken is visible; `toInt` gives back the C result.
-/

namespace Ddcci

/-! ## Constants (`#define`s of ddcci.c) -/

/-- DEFAULT_DDCCI_ADDR: ddc/ci logic sits at 0x37. -/
def DEFAULT_DDCCI_ADDR : Nat := 0x37
/-- DEFAULT_EDID_ADDR: edid sits at 0x50. -/
def DEFAULT_EDID_ADDR : Nat := 0x50
/-- DDCCI_COMMAND_WRITE: write ctrl value. -/
def DDCCI_COMMAND_WRITE : Nat := 0x03
/-- DDCCI_COMMAND_SAVE: save current settings. -/
def DDCCI_COMMAND_SAVE : Nat := 0x0c
/-- DDCCI_REPLY_CAPS: get monitor caps reply. -/
def DDCCI_REPLY_CAPS : Nat := 0xe3
/-- DDCCI_COMMAND_CAPS: get monitor caps. -/
def DDCCI_COMMAND_CAPS : Nat := 0xf3
/-- DDCCI_COMMAND_PRESENCE: ACCESS.bus presence check. -/
def DDCCI_COMMAND_PRESENCE : Nat := 0xf7
/-- DDCCI_CTRL: samsung specific register. -/
def DDCCI_CTRL : Nat := 0xf5
/-- DDCCI_CTRL_ENABLE. -/
def DDCCI_CTRL_ENABLE : Nat := 0x0001
/-- DDCCI_CTRL_DISABLE. -/
def DDCCI_CTRL_DISABLE : Nat := 0x0000
/-- MAX_BYTES: max message length. -/
def MAX_BYTES : Nat := 127
/-- DELAY: uS to wait after write. -/
def DELAY : Nat := 45000
/-- MAGIC_1: first byte to send, host address. -/
def MAGIC_1 : Nat := 0x51
/-- MAGIC_2: second byte to send, ored with length. -/
def MAGIC_2 : Nat := 0x80
/-- MAGIC_XOR: initial xor for received frame. -/
def MAGIC_XOR : Nat := 0x50

/-! ## Data model (ddcci.h) -/

/-- The `struct timeval` of the C library: seconds and microseconds, both `long`. -/
structure timeval where
  tv_sec : Int
  tv_usec : Int
  deriving DecidableEq, Repr

/-- The handshake kinds of a profile (`enum init_type` of monitor_db.h, which is
not part of the sources at hand; only `samsung` is named by ddcci.c). -/
inductive init_type where
  | standard
  | samsung
  deriving DecidableEq, Repr

/-- The fields of `struct monitor_db` that ddcci.c reads: the display name and
the handshake kind. -/
structure monitor_db where
  name : String
  init : init_type
  deriving DecidableEq, Repr

/-- The `struct monitor` of ddcci.h. -/
structure monitor where
  fd : Int
  addr : Nat
  pnpid : List Nat
  digital : Nat
  last : timeval
  db : Option monitor_db
  deriving DecidableEq, Repr

/-! ## Raw bus primitives -/

/-- Function `i2c_write`: the result of the `ioctl`, or -1 when the `ioctl` failed. -/
def i2c_write (ioctl : Int) : Int := if ioctl < 0 then -1 else ioctl

/-- Function `i2c_read`: the result of the `ioctl`, or -1 when the `ioctl` failed. -/
def i2c_read (ioctl : Int) : Int := if ioctl < 0 then -1 else ioctl

/-! ## Bus timer -/

/-- Conversion of a `long` expression to `unsigned long` (64 bits). -/
def toULong (x : Int) : Int := x % 2 ^ 64

/-- Conversion of an `unsigned long` value back to `long` (two's complement). -/
def toLong (x : Int) : Int :=
  if x % 2 ^ 64 < 2 ^ 63 then x % 2 ^ 64 else x % 2 ^ 64 - 2 ^ 64

/-- The time in microseconds that a `timeval` denotes. -/
def timeval.micros (t : timeval) : Int := t.tv_sec * 1000000 + t.tv_usec

/-- The local variable `now` of `ddcci_delay` after the waiting block, paired
with the argument of the `usleep` call made there (0 when `usleep` is not
called: the code calls it with `DELAY - usec`, which is at least 1). -/
def ddcci_delay_wait (last now : timeval) : timeval × Nat :=
  if last.tv_sec ≥ now.tv_sec - 1 then
    let usec : Int :=
      toULong ((now.tv_sec - last.tv_sec) * 10000000 + now.tv_usec - last.tv_usec)
    if usec < DELAY then
      let tv_usec := toLong (toULong now.tv_usec + ((DELAY : Int) - usec))
      if tv_usec > 1000000 then
        ({ tv_sec := now.tv_sec + 1, tv_usec := tv_usec - 1000000 }, (DELAY - usec).toNat)
      else
        ({ tv_sec := now.tv_sec, tv_usec := tv_usec }, (DELAY - usec).toNat)
    else (now, 0)
  else (now, 0)

/-- Function `ddcci_delay(mon, iswrite)`. `clock` is the outcome of `gettimeofday`:
`none` when it failed, else the time it stored in `now`. The result is the
connection afterwards and the number of microseconds handed to `usleep`. -/
def ddcci_delay (mon : monitor) (iswrite : Bool) (clock : Option timeval) : monitor × Nat :=
  match clock with
  | none => (mon, DELAY)
  | some now =>
    let r := ddcci_delay_wait mon.last now
    if iswrite then ({ mon with last := r.1 }, r.2) else (mon, r.2)

/-! ## Frame codec: sending -/

/-- The loop `while (len--) xor ^= (_buf[i++] = *buf++);` of `ddcci_write`:
`out` is the part of `_buf` filled so far, `x` the running `xor`. -/
def write_loop : List Nat → List Nat → Nat → List Nat × Nat
  | [], out, x => (out, x)
  | b :: bs, out, x => write_loop bs (out ++ [b % 256]) (x ^^^ (b % 256))

/-- What one call of `ddcci_write` did. -/
structure WriteOut where
  /-- The connection after `ddcci_delay(mon, 1)`. -/
  mon : monitor
  /-- Microseconds slept in `ddcci_delay`. -/
  slept : Nat
  /-- The bytes stored in `_buf[0]`, `_buf[1]`, ... in order (`i` of them). -/
  frame : List Nat
  /-- The `len` argument of `i2c_write`: `i` converted to `unsigned char`. -/
  i2cLen : Nat
  /-- Whether a store fell outside `unsigned char _buf[MAX_BYTES + 3]`. -/
  overrun : Bool
  /-- The value returned: that of `i2c_write`. -/
  ret : Int
  deriving DecidableEq, Repr

/-- The contents of `_buf` that `ddcci_write` builds for the payload `buf` sent
to the device at `addr`; `len` is `buf.length` (an `unsigned char`). -/
def ddcci_write_frame (addr : Nat) (buf : List Nat) : List Nat :=
  let xor0 : Nat := (addr % 256) <<< 1
  let b0 := MAGIC_1
  let xor1 := xor0 ^^^ b0
  let b1 := (MAGIC_2 ||| buf.length) % 256
  let xor2 := xor1 ^^^ b1
  let r := write_loop buf [b0, b1] xor2
  r.1 ++ [r.2 % 256]

/-- Function `ddcci_write(mon, buf, len)` with `len = buf.length`. `clock` is the outcome
of `gettimeofday` in `ddcci_delay`, `ioctl` the result of the bus write. The
function has a single exit: the call of `i2c_write`. -/
def ddcci_write (mon : monitor) (buf : List Nat) (clock : Option timeval) (ioctl : Int) :
    WriteOut :=
  let frame := ddcci_write_frame mon.addr buf
  let d := ddcci_delay mon true clock
  { mon := d.1
    slept := d.2
    frame := frame
    i2cLen := frame.length % 256
    overrun := decide (MAX_BYTES + 3 < frame.length)
    ret := i2c_write ioctl }

/-! ## Frame codec: receiving -/

/-- The exits of `ddcci_read` that return -1, in source order, and `range` for
an access outside the bytes of the receive buffer. -/
inductive ReadError where
  | busRead
  | address
  | magic
  | length
  | checksum
  | range
  deriving DecidableEq, Repr

/-- The loop `for (i = 0; i < _len + 3; i++) xor ^= _buf[i];` of `ddcci_read`,
from index `i` with `n` iterations left and running value `x`; `none` when an
index is outside `_buf`. -/
def xor_loop (_buf : List Nat) : Nat → Nat → Nat → Option Nat
  | 0, _, x => some x
  | n + 1, i, x =>
    match _buf[i]? with
    | none => none
    | some b => xor_loop _buf n (i + 1) (x ^^^ b)

/-- The validation part of `ddcci_read` (from `validate answer` on): `addr` is
`mon->addr`, `len` the maximum payload length asked for and `_buf` the receive
buffer as the bus read left it. On success the payload copied to the caller. -/
def ddcci_read_validate (addr len : Nat) (_buf : List Nat) : Except ReadError (List Nat) :=
  match _buf[0]?, _buf[1]? with
  | some b0, some b1 =>
    if b0 ≠ (addr * 2) % 2 ^ 32 then .error .address
    else if b1 &&& MAGIC_2 = 0 then .error .magic
    else
      -- `_buf[1] & ~MAGIC_2` on a byte keeps its low seven bits
      let _len := b1 &&& 0x7f
      if _len > len ∨ _len > MAX_BYTES then .error .length
      else
        match xor_loop _buf (_len + 3) 0 MAGIC_XOR with
        | none => .error .range
        | some x =>
          if x ≠ 0 then .error .checksum
          else .ok ((_buf.drop 2).take _len)
  | _, _ => .error .range

/-- What one call of `ddcci_read` did. -/
structure ReadOut where
  /-- The connection after `ddcci_delay(mon, 0)`. -/
  mon : monitor
  /-- Microseconds slept in `ddcci_delay`. -/
  slept : Nat
  /-- The `len` argument of `i2c_read`: `len + 3` converted to `unsigned char`. -/
  i2cLen : Nat
  /-- The payload copied to the caller, or the exit taken. -/
  res : Except ReadError (List Nat)
  deriving Repr

/-- Function `ddcci_read(mon, buf, len)`. `clock` is the outcome of `gettimeofday`,
`ioctl` the result of the bus read and `data` the receive buffer after it. -/
def ddcci_read (mon : monitor) (len : Nat) (clock : Option timeval) (ioctl : Int)
    (data : List Nat) : ReadOut :=
  let d := ddcci_delay mon false clock
  { mon := d.1
    slept := d.2
    i2cLen := (len + 3) % 256
    res := if i2c_read ioctl ≤ 0 then .error .busRead else ddcci_read_validate mon.addr len data }

/-- The `int` that `ddcci_read` returns: the payload length, or -1. -/
def ReadOut.ret (r : ReadOut) : Int :=
  match r.res with
  | .ok p => p.length
  | .error _ => -1

/-! ## Control transactions -/

/-- The system calls of one write-then-read exchange: the outcome of
`gettimeofday` and of the `ioctl` for the write, the same for the read, and the
receive buffer after the read. -/
structure Exchange where
  clockW : Option timeval
  ioctlW : Int
  clockR : Option timeval
  ioctlR : Int
  data : List Nat
  deriving Repr

/-- What a write-then-read exchange did: the write, and the read when the
write did not fail (`none`: the function returned -1 before reading). -/
structure RawOut where
  write : WriteOut
  read : Option ReadOut
  deriving Repr

/-- The connection after the exchange. -/
def RawOut.mon (r : RawOut) : monitor :=
  match r.read with
  | none => r.write.mon
  | some rd => rd.mon

/-- The decoded reply payload, when the exchange got one. -/
def RawOut.payload (r : RawOut) : Option (List Nat) :=
  match r.read with
  | none => none
  | some rd =>
    match rd.res with
    | .ok p => some p
    | .error _ => none

/-- The `int` the exchange returns: the payload length, or -1. -/
def RawOut.ret (r : RawOut) : Int :=
  match r.read with
  | none => -1
  | some rd => rd.ret

/-- Function `ddcci_writectrl(mon, ctrl, value)`: `value` is an `unsigned short`. -/
def ddcci_writectrl (mon : monitor) (ctrl value : Nat) (clock : Option timeval) (ioctl : Int) :
    WriteOut :=
  ddcci_write mon [DDCCI_COMMAND_WRITE, ctrl, (value >>> 8) % 256, value &&& 255] clock ioctl

/-- Function `ddcci_command(mon, cmd)`. -/
def ddcci_command (mon : monitor) (cmd : Nat) (clock : Option timeval) (ioctl : Int) : WriteOut :=
  ddcci_write mon [cmd] clock ioctl

/-- Function `ddcci_raw_caps(mon, offset, buf, len)`. -/
def ddcci_raw_caps (mon : monitor) (offset len : Nat) (io : Exchange) : RawOut :=
  let w := ddcci_write mon [DDCCI_COMMAND_CAPS, (offset >>> 8) % 256, offset &&& 255]
    io.clockW io.ioctlW
  if w.ret < 0 then { write := w, read := none }
  else { write := w, read := some (ddcci_read w.mon len io.clockR io.ioctlR io.data) }

/-- The exits of `ddcci_caps`: success with the length returned, the three
`return -1` sites in source order, and `fuel` for a loop cut short by the
iteration bound of the embedding. -/
inductive CapsRet where
  | ok (n : Nat)
  | readFailed
  | invalidSequence
  | bufferTooSmall
  | fuel
  deriving DecidableEq, Repr

/-- The `int` that `ddcci_caps` returns. -/
def CapsRet.toInt : CapsRet → Int
  | .ok n => n
  | _ => -1

/-- What `ddcci_caps` did. -/
structure CapsOut (σ : Type) where
  /-- The state of the chunk source after the last request. -/
  st : σ
  ret : CapsRet
  /-- The bytes stored in `buffer[0]`, `buffer[1]`, ... in order. -/
  buffer : List Nat
  /-- The offsets passed to `ddcci_raw_caps`, in order. -/
  reqs : List Nat

/-- The loop `for (i = 3; i < len; i++)` of `ddcci_caps` over the bytes
`buf[3..len)`; `bufferpos` is the length of `buffer`. The flag is false when
the loop left through the `Buffer too small` exit. -/
def caps_copy (buflen : Nat) : List Nat → List Nat → List Nat × Bool
  | [], buffer => (buffer, true)
  | b :: bs, buffer =>
    if (buffer ++ [b]).length ≥ buflen then (buffer ++ [b], false)
    else caps_copy buflen bs (buffer ++ [b])

/-- The `do ... while (len > 3)` loop of `ddcci_caps`, with at most `fuel`
iterations. `raw_caps st offset` stands for the call
`ddcci_raw_caps(mon, offset, buf, sizeof(buf))` made in state `st`: it gives
the payload copied to `buf` (`none` when the call returned -1) and the next
state. -/
def caps_loop {σ : Type} (raw_caps : σ → Nat → Option (List Nat) × σ) (buflen : Nat) :
    Nat → σ → Nat → List Nat → List Nat → CapsOut σ
  | 0, st, _, buffer, reqs => { st := st, ret := .fuel, buffer := buffer, reqs := reqs }
  | fuel + 1, st, offset, buffer, reqs =>
    match raw_caps st offset with
    | (none, st1) =>
      { st := st1, ret := .readFailed, buffer := buffer, reqs := reqs ++ [offset] }
    | (some buf, st1) =>
      if buf.length < 3 ∨ buf.getD 0 0 ≠ DDCCI_REPLY_CAPS ∨
          buf.getD 1 0 * 256 + buf.getD 2 0 ≠ offset then
        { st := st1, ret := .invalidSequence, buffer := buffer, reqs := reqs ++ [offset] }
      else
        let c := caps_copy buflen (buf.drop 3) buffer
        if c.2 = false then
          { st := st1, ret := .bufferTooSmall, buffer := c.1, reqs := reqs ++ [offset] }
        else if buf.length > 3 then
          caps_loop raw_caps buflen fuel st1 (offset + (buf.length - 3)) c.1 (reqs ++ [offset])
        else
          { st := st1, ret := .ok c.1.length, buffer := c.1 ++ [0], reqs := reqs ++ [offset] }

/-- Function `ddcci_caps(mon, buffer, buflen)` over a chunk source `raw_caps` started in
state `st`. Every iteration that continues has stored at least one byte and
left `bufferpos < buflen`, so `buflen + 1` iterations are enough. -/
def ddcci_caps {σ : Type} (raw_caps : σ → Nat → Option (List Nat) × σ) (buflen : Nat) (st : σ) :
    CapsOut σ :=
  caps_loop raw_caps buflen (buflen + 1) st 0 [] []

/-- Function `ddcci_caps` on the bus: the `k`-th call of `ddcci_raw_caps` makes the
system calls `io k`; the state is the connection and the number of calls made. -/
def ddcci_caps_bus (io : Nat → Exchange) (mon : monitor) (buflen : Nat) :
    CapsOut (monitor × Nat) :=
  ddcci_caps
    (fun s offset =>
      let r := ddcci_raw_caps s.1 offset 35 (io s.2)
      (r.payload, (r.mon, s.2 + 1)))
    buflen (mon, 0)

/-- A chunk source that answers by request number and offset and keeps no
other state: the state is the number of requests made so far. -/
def chunk_source (src : Nat → Nat → Option (List Nat)) :
    Nat → Nat → Option (List Nat) × Nat :=
  fun k offset => (src k offset, k + 1)

/-! ## Identity (EDID) -/

/-- One digit of the `%02X` conversion: `0`-`9`, then upper-case `A`-`F`. -/
def hexdigit (n : Nat) : Nat := if n < 10 then 48 + n else 65 + (n - 10)

/-- The `%02X` conversion of a byte: its two upper-case hexadecimal digits. -/
def hex2 (b : Nat) : List Nat := [hexdigit (b / 16), hexdigit (b % 16)]

/-- The exits of `ddcci_read_edid`: success, the `Corrupted EDID` exit and the
`Reading EDID failed` exit. -/
inductive EdidRet where
  | ok
  | corrupt
  | readFailed
  deriving DecidableEq, Repr

/-- The `int` that `ddcci_read_edid` returns. -/
def EdidRet.toInt : EdidRet → Int
  | .ok => 0
  | _ => -1

/-- The characters that the `snprintf` of `ddcci_read_edid` formats from the
EDID block `buf` (`'A'` is 65), before the cut to the size of the field. -/
def edid_chars (buf : List Nat) : List Nat :=
  [ (((buf.getD 8 0 >>> 2) &&& 31) + 65 - 1) % 256,
    ((((buf.getD 8 0 &&& 3) <<< 3) + (buf.getD 9 0 >>> 5)) + 65 - 1) % 256,
    ((buf.getD 9 0 &&& 31) + 65 - 1) % 256 ]
  ++ hex2 (buf.getD 11 0) ++ hex2 (buf.getD 10 0)

/-- Function `ddcci_read_edid(mon, addr)`. `ioctlW` is the result of the bus
write of the offset byte, `ioctlR` that of the bus read and `buf` the 128-byte
buffer after it (the read is only made when the write returned more than 0).
`snprintf(mon->pnpid, 8, ...)` stores at most 7 characters and a NUL. -/
def ddcci_read_edid (mon : monitor) (ioctlW ioctlR : Int) (buf : List Nat) :
    EdidRet × monitor :=
  if i2c_write ioctlW > 0 ∧ i2c_read ioctlR > 0 then
    if buf.getD 0 0 ≠ 0 ∨ buf.getD 1 0 ≠ 0xff ∨ buf.getD 2 0 ≠ 0xff ∨ buf.getD 3 0 ≠ 0xff ∨
        buf.getD 4 0 ≠ 0xff ∨ buf.getD 5 0 ≠ 0xff ∨ buf.getD 6 0 ≠ 0xff ∨ buf.getD 7 0 ≠ 0 then
      (.corrupt, mon)
    else
      (.ok, { mon with
        pnpid := (edid_chars buf).take 7 ++ [0]
        digital := buf.getD 20 0 &&& 0x80 })
  else (.readFailed, mon)

/-! ## Opening and closing a connection -/

/-- The system calls of `ddcci_open`: the result of `open`, the two bus
transfers of the EDID read with the buffer read, and the `gettimeofday` and
bus write of the handshake. -/
structure OpenEnv where
  fd : Int
  edidW : Int
  edidR : Int
  edid : List Nat
  clock : Option timeval
  ioctl : Int
  deriving Repr

/-- What `ddcci_open` did: the result, the connection, and the handshake write
when one was made. -/
structure OpenOut where
  ret : Int
  mon : monitor
  handshake : Option WriteOut
  deriving Repr

/-- The connection after `memset(mon, 0, sizeof(struct monitor))`. -/
def monitor_zero : monitor :=
  { fd := 0, addr := 0, pnpid := List.replicate 8 0, digital := 0,
    last := { tv_sec := 0, tv_usec := 0 }, db := none }

/-- The test `strncmp(mon->pnpid, "SAM", 3) == 0`. -/
def pnpid_is_SAM (pnpid : List Nat) : Bool := pnpid.take 3 == [83, 65, 77]

/-- The handshake at the end of `ddcci_open_with_addr`, from `if (mon->db)` on:
`clock` and `ioctl` are the outcomes of `gettimeofday` and of the bus write. -/
def open_handshake (mon : monitor) (clock : Option timeval) (ioctl : Int) : OpenOut :=
  match mon.db with
  | some db =>
    if db.init = init_type.samsung then
      let w := ddcci_writectrl mon DDCCI_CTRL DDCCI_CTRL_ENABLE clock ioctl
      if w.ret < 0 then { ret := -1, mon := w.mon, handshake := some w }
      else { ret := 0, mon := w.mon, handshake := some w }
    else
      let w := ddcci_command mon DDCCI_COMMAND_PRESENCE clock ioctl
      if w.ret < 0 then { ret := -1, mon := w.mon, handshake := some w }
      else { ret := 0, mon := w.mon, handshake := some w }
  | none =>
    if pnpid_is_SAM mon.pnpid then
      let w := ddcci_writectrl mon DDCCI_CTRL DDCCI_CTRL_ENABLE clock ioctl
      if w.ret < 0 then { ret := -1, mon := w.mon, handshake := some w }
      else { ret := 0, mon := w.mon, handshake := some w }
    else
      let w := ddcci_command mon DDCCI_COMMAND_PRESENCE clock ioctl
      if w.ret < 0 then { ret := -1, mon := w.mon, handshake := some w }
      else { ret := 0, mon := w.mon, handshake := some w }

/-- Function `ddcci_open_with_addr(mon, filename, addr, edid)`. The profile lookup
`ddcci_create_db` belongs to the monitor database, outside ddcci.c: it is the
argument `create_db`, applied to `mon->pnpid`. -/
def ddcci_open_with_addr (create_db : List Nat → Option monitor_db) (addr : Nat)
    (env : OpenEnv) : OpenOut :=
  let mon0 : monitor := { monitor_zero with fd := env.fd }
  if env.fd < 0 then { ret := -3, mon := mon0, handshake := none }
  else
    let mon1 : monitor := { mon0 with addr := addr }
    let e := ddcci_read_edid mon1 env.edidW env.edidR env.edid
    if e.1.toInt < 0 then { ret := -2, mon := e.2, handshake := none }
    else open_handshake { e.2 with db := create_db e.2.pnpid } env.clock env.ioctl

/-- Function `ddcci_open(mon, filename)`. -/
def ddcci_open (create_db : List Nat → Option monitor_db) (env : OpenEnv) : OpenOut :=
  ddcci_open_with_addr create_db DEFAULT_DDCCI_ADDR env

/-- The system calls of `ddcci_close`: the `gettimeofday` and bus write of the
disable command, and the result of `close`. -/
structure CloseEnv where
  clock : Option timeval
  ioctl : Int
  close : Int
  deriving Repr

/-- What `ddcci_close` did: the result, the disable write when one was made,
whether `ddcci_free_db` was called and whether `close(mon->fd)` was called. -/
structure CloseOut where
  ret : Int
  disable : Option WriteOut
  freed : Bool
  closed : Bool
  deriving Repr

/-- The end of `ddcci_close`: `if ((mon->fd > -1) && (close(mon->fd) < 0)) return -3;
return 0;`, reached with the disable write `disable` and `freed`. -/
def ddcci_close_fd (mon : monitor) (env : CloseEnv) (disable : Option WriteOut) (freed : Bool) :
    CloseOut :=
  if mon.fd > -1 then
    if env.close < 0 then { ret := -3, disable := disable, freed := freed, closed := true }
    else { ret := 0, disable := disable, freed := freed, closed := true }
  else { ret := 0, disable := disable, freed := freed, closed := false }

/-- Function `ddcci_close(mon)`. -/
def ddcci_close (mon : monitor) (env : CloseEnv) : CloseOut :=
  match mon.db with
  | some db =>
    if db.init = init_type.samsung then
      let w := ddcci_writectrl mon DDCCI_CTRL DDCCI_CTRL_DISABLE env.clock env.ioctl
      if w.ret < 0 then { ret := -1, disable := some w, freed := false, closed := false }
      else ddcci_close_fd mon env (some w) true
    else ddcci_close_fd mon env none true
  | none =>
    if pnpid_is_SAM mon.pnpid then
      let w := ddcci_writectrl mon DDCCI_CTRL DDCCI_CTRL_DISABLE env.clock env.ioctl
      if w.ret < 0 then { ret := -1, disable := some w, freed := false, closed := false }
      else ddcci_close_fd mon env (some w) false
    else ddcci_close_fd mon env none false

/-! ## Enumeration -/

/-- The C string held in a byte array: the bytes before the first NUL. -/
def cstr (bytes : List Nat) : List Nat := bytes.takeWhile (fun b => b ≠ 0)

/-- The text of a byte string. -/
def string_of (bytes : List Nat) : String := String.mk (bytes.map Char.ofNat)

/-- The bytes of a text. -/
def bytes_of (s : String) : List Nat := s.toList.map Char.toNat

/-- The fields of `struct monitorlist` but the link to the next entry. -/
structure monitorlist where
  filename : String
  supported : Bool
  name : String
  digital : Nat
  deriving DecidableEq, Repr

/-- One entry returned by `readdir`, with the system calls that opening and
closing that device node will make. -/
structure DirEntry where
  d_name : String
  openEnv : OpenEnv
  closeEnv : CloseEnv
  deriving Repr

/-- The test `!strncmp(direntp->d_name, "i2c-", 4)`. -/
def is_i2c_name (d_name : String) : Bool := d_name.toList.take 4 == "i2c-".toList

/-- The label `snprintf(name, 32, "Unknown monitor (%s)", mon.pnpid)`: at most
31 characters. -/
def unknown_monitor_name (pnpid : List Nat) : String :=
  String.mk (("Unknown monitor (" ++ string_of (cstr pnpid) ++ ")").toList.take 31)

/-- What `ddcci_probe` did: the list returned, and the file names handed to
`ddcci_open`, in order. -/
structure ProbeOut where
  list : List monitorlist
  probed : List String
  deriving Repr

/-- The `while ((direntp = readdir(dirp)) != NULL)` loop of `ddcci_probe` over
the entries left to read; `acc` holds the list built and the names probed so
far (a new entry is linked at the tail, through `last`). -/
def probe_loop (create_db : List Nat → Option monitor_db) : List DirEntry → ProbeOut → ProbeOut
  | [], acc => acc
  | d :: rest, acc =>
    if is_i2c_name d.d_name then
      let filename := "/dev/" ++ d.d_name
      let o := ddcci_open create_db d.openEnv
      let list :=
        if o.ret > -2 then
          acc.list ++ [{ filename := filename
                         supported := decide (o.ret = 0)
                         name := match o.mon.db with
                           | some db => db.name
                           | none => unknown_monitor_name o.mon.pnpid
                         digital := o.mon.digital }]
        else acc.list
      -- `ddcci_close(&mon)`: its result is not used
      let _c := ddcci_close o.mon d.closeEnv
      probe_loop create_db rest { list := list, probed := acc.probed ++ [filename] }
    else probe_loop create_db rest acc

/-- Function `ddcci_probe()` over the entries of `/dev/` in the order `readdir`
gives them. -/
def ddcci_probe (create_db : List Nat → Option monitor_db) (dir : List DirEntry) : ProbeOut :=
  probe_loop create_db dir { list := [], probed := [] }

/-! ## Vocabulary of the statements -/

/-- The running XOR of the bytes of `l`, started from `seed`. -/
def xorAll (seed : Nat) (l : List Nat) : Nat := l.foldl (fun x b => x ^^^ b) seed

/-- The buffer `raw` with bit `k` of the byte at index `i` flipped. -/
def flipBit (raw : List Nat) (i k : Nat) : List Nat := raw.set i (raw.getD i 0 ^^^ 2 ^ k)

/-- A sample connection: the default DDC/CI address, no profile, timer at zero. -/
def sample_mon : monitor :=
  { fd := 3, addr := DEFAULT_DDCCI_ADDR, pnpid := [], digital := 0,
    last := { tv_sec := 0, tv_usec := 0 }, db := none }

/-- A chunk source that answers the offsets 0, 32 and 64 with 32, 32 and 1
content bytes, and no other offset. -/
def caps_source_32_32_1 : Nat → Nat → Option (List Nat) := fun _ offset =>
  if offset = 0 then some ([0xe3, 0, 0] ++ List.replicate 32 0x41)
  else if offset = 32 then some ([0xe3, 0, 32] ++ List.replicate 32 0x42)
  else if offset = 64 then some [0xe3, 0, 64, 0x43]
  else none

/-- The same source, which also answers offset 65, with no content. -/
def caps_source_32_32_1_0 : Nat → Nat → Option (List Nat) := fun _ offset =>
  if offset = 0 then some ([0xe3, 0, 0] ++ List.replicate 32 0x41)
  else if offset = 32 then some ([0xe3, 0, 32] ++ List.replicate 32 0x42)
  else if offset = 64 then some [0xe3, 0, 64, 0x43]
  else if offset = 65 then some [0xe3, 0, 65]
  else none

/-- A well-formed chunk source with one content byte in all: offset 0 is
answered with one content byte, offset 1 with none. -/
def caps_source_1_0 : Nat → Nat → Option (List Nat) := fun _ offset =>
  if offset = 0 then some [0xe3, 0, 0, 0x41]
  else if offset = 1 then some [0xe3, 0, 1]
  else none

/-- The running offset before chunk `k` of the content chunks `cs`: the total
length of the chunks before it. -/
def chunk_offset (cs : List (List Nat)) (k : Nat) : Nat := ((cs.take k).map List.length).sum

/-- The eight bytes that start an EDID block. -/
def edid_header : List Nat := [0x00, 0xff, 0xff, 0xff, 0xff, 0xff, 0xff, 0x00]

/-- A 128-byte EDID block with the header, the bytes `b8 b9 b10 b11` at offsets
8 to 11, `b20` at offset 20 and zeros elsewhere. -/
def edid_block (b8 b9 b10 b11 b20 : Nat) : List Nat :=
  edid_header ++ [b8, b9, b10, b11] ++ List.replicate 8 0 ++ [b20] ++ List.replicate 107 0

/-- The EDID read that `ddcci_open` makes: on the zeroed connection with the
file descriptor and the default DDC/CI address set. -/
def open_edid (env : OpenEnv) : EdidRet × monitor :=
  ddcci_read_edid { monitor_zero with fd := env.fd, addr := DEFAULT_DDCCI_ADDR }
    env.edidW env.edidR env.edid

/-- The connection of `ddcci_open` at the handshake: after the EDID read and
the profile lookup. -/
def open_profiled (create_db : List Nat → Option monitor_db) (env : OpenEnv) : monitor :=
  { (open_edid env).2 with db := create_db (open_edid env).2.pnpid }

/-- A profile was found whose init kind is samsung, or none was found and the
identity starts with `SAM`. -/
def wants_enable (create_db : List Nat → Option monitor_db) (pnpid : List Nat) : Prop :=
  (∃ db, create_db pnpid = some db ∧ db.init = init_type.samsung) ∨
  (create_db pnpid = none ∧ pnpid.take 3 = bytes_of "SAM")

/-- A connection held open on descriptor 3 with a profile of the samsung kind. -/
def samsung_mon : monitor :=
  { fd := 3, addr := DEFAULT_DDCCI_ADDR, pnpid := bytes_of "SAM1234" ++ [0], digital := 0,
    last := { tv_sec := 0, tv_usec := 0 },
    db := some { name := "Samsung SyncMaster", init := init_type.samsung } }

/-- The entry that `ddcci_probe` is to return for the directory entry `d`, if
any: for a name that starts with `i2c-` and an open result of 0 or -1. -/
def probe_entry (create_db : List Nat → Option monitor_db) (d : DirEntry) : Option monitorlist :=
  if is_i2c_name d.d_name = true ∧
      ((ddcci_open create_db d.openEnv).ret = 0 ∨ (ddcci_open create_db d.openEnv).ret = -1) then
    some
      { filename := "/dev/" ++ d.d_name
        supported := decide ((ddcci_open create_db d.openEnv).ret = 0)
        name :=
          match create_db ((edid_chars d.openEnv.edid).take 7 ++ [0]) with
          | some db => db.name
          | none =>
            "Unknown monitor (" ++ string_of (cstr ((edid_chars d.openEnv.edid).take 7 ++ [0]))
              ++ ")"
        digital := d.openEnv.edid.getD 20 0 &&& 0x80 }
  else none

/-- A profile database that knows one monitor, `DEL4011`. -/
def sample_db : List Nat → Option monitor_db := fun pnpid =>
  if pnpid = bytes_of "DEL4011" ++ [0] then
    some { name := "Dell 2001FP", init := init_type.standard }
  else none

/-- A listing of `/dev/`: a node that answers (identity `SAMABCD`, digital), a
name without the `i2c-` start, a node whose EDID read fails, a node that cannot
be opened, a node with a profile whose handshake write fails, and a name that
is a proper start of `i2c-`. -/
def sample_dir : List DirEntry :=
  [ { d_name := "i2c-0"
      openEnv := { fd := 3, edidW := 1, edidR := 1,
                   edid := edid_block 0x4c 0x2d 0xcd 0xab 0x80, clock := none, ioctl := 1 }
      closeEnv := { clock := none, ioctl := 1, close := 0 } },
    { d_name := "tty0"
      openEnv := { fd := 3, edidW := 1, edidR := 1,
                   edid := edid_block 0x4c 0x2d 0xcd 0xab 0x80, clock := none, ioctl := 1 }
      closeEnv := { clock := none, ioctl := 1, close := 0 } },
    { d_name := "i2c-1"
      openEnv := { fd := 3, edidW := -1, edidR := -1, edid := List.replicate 128 0,
                   clock := none, ioctl := 1 }
      closeEnv := { clock := none, ioctl := 1, close := 0 } },
    { d_name := "i2c-2"
      openEnv := { fd := -1, edidW := 1, edidR := 1,
                   edid := edid_block 0x4c 0x2d 0xcd 0xab 0x80, clock := none, ioctl := 1 }
      closeEnv := { clock := none, ioctl := 1, close := 0 } },
    { d_name := "i2c-3"
      openEnv := { fd := 3, edidW := 1, edidR := 1,
                   edid := edid_block 0x10 0xac 0x11 0x40 0x00, clock := none, ioctl := -1 }
      closeEnv := { clock := none, ioctl := 1, close := 0 } },
    { d_name := "i2c"
      openEnv := { fd := 3, edidW := 1, edidR := 1,
                   edid := edid_block 0x4c 0x2d 0xcd 0xab 0x80, clock := none, ioctl := 1 }
      closeEnv := { clock := none, ioctl := 1, close := 0 } } ]

/-! # Theorems -/

/-! ## Lemmas on the running XOR and the two loops -/

theorem xorAll_nil (s : Nat) : xorAll s [] = s := rfl

theorem xorAll_cons (s b : Nat) (l : List Nat) : xorAll s (b :: l) = xorAll (s ^^^ b) l := rfl

theorem xorAll_append (s : Nat) (l₁ l₂ : List Nat) :
    xorAll s (l₁ ++ l₂) = xorAll (xorAll s l₁) l₂ := by
  simp [xorAll, List.foldl_append]

theorem xorAll_seed (s : Nat) (l : List Nat) : xorAll s l = s ^^^ xorAll 0 l := by
  induction l generalizing s with
  | nil => simp [xorAll_nil]
  | cons b l ih =>
    rw [xorAll_cons, ih, xorAll_cons, ih (0 ^^^ b), Nat.zero_xor, Nat.xor_assoc]

theorem xor_mod_256 (a b : Nat) : (a ^^^ b) % 256 = (a % 256) ^^^ (b % 256) := by
  apply Nat.eq_of_testBit_eq
  intro i
  have h : (256 : Nat) = 2 ^ 8 := by norm_num
  rw [h]
  simp only [Nat.testBit_mod_two_pow, Nat.testBit_xor]
  cases decide (i < 8) <;> simp

theorem xorAll_lt (s : Nat) (l : List Nat) (hs : s < 256) (hl : ∀ b ∈ l, b < 256) :
    xorAll s l < 256 := by
  induction l generalizing s with
  | nil => simpa [xorAll_nil] using hs
  | cons b l ih =>
    rw [xorAll_cons]
    have hb : b < 256 := hl b (List.mem_cons_self _ _)
    apply ih
    · exact Nat.xor_lt_two_pow (n := 8) hs hb
    · intro c hc
      exact hl c (List.mem_cons_of_mem _ hc)

theorem write_loop_eq (bs out : List Nat) (x : Nat) (hb : ∀ b ∈ bs, b < 256) :
    write_loop bs out x = (out ++ bs, xorAll x bs) := by
  induction bs generalizing out x with
  | nil => simp [write_loop, xorAll_nil]
  | cons b bs ih =>
    have hb0 : b < 256 := hb b (List.mem_cons_self _ _)
    have hmod : b % 256 = b := Nat.mod_eq_of_lt hb0
    rw [write_loop, hmod, ih _ _ (fun c hc => hb c (List.mem_cons_of_mem _ hc)), xorAll_cons]
    simp

theorem write_loop_length (bs out : List Nat) (x : Nat) :
    (write_loop bs out x).1.length = out.length + bs.length := by
  induction bs generalizing out x with
  | nil => simp [write_loop]
  | cons b bs ih => rw [write_loop, ih]; simp; omega

theorem xor_loop_eq (_buf : List Nat) (n i x : Nat) (h : i + n ≤ _buf.length) :
    xor_loop _buf n i x = some (xorAll x ((_buf.drop i).take n)) := by
  induction n generalizing i x with
  | zero => simp [xor_loop, xorAll_nil]
  | succ n ih =>
    have hi : i < _buf.length := by omega
    rw [xor_loop, List.getElem?_eq_getElem hi]
    simp only
    rw [ih (i + 1) (x ^^^ _buf[i]) (by omega)]
    rw [List.drop_eq_getElem_cons hi, List.take_succ_cons, xorAll_cons]

theorem or_magic_lt (n : Nat) (hn : n ≤ 127) : MAGIC_2 ||| n < 256 :=
  Nat.or_lt_two_pow (n := 8) (by decide) (by simp; omega)

theorem or_magic_and_magic (n : Nat) : (MAGIC_2 ||| n) &&& MAGIC_2 ≠ 0 := by
  intro h
  have h7 : Nat.testBit 128 7 = true := by decide
  have hb : ((MAGIC_2 ||| n) &&& MAGIC_2).testBit 7 = true := by
    simp [MAGIC_2, h7]
  rw [h] at hb
  simp at hb

theorem or_magic_and_7f (n : Nat) (hn : n ≤ 127) : (MAGIC_2 ||| n) &&& 0x7f = n := by
  have h : ∀ m, m < 128 → (MAGIC_2 ||| m) &&& 0x7f = m := by decide
  exact h n (by omega)

/-! ## The frame sent -/

theorem ddcci_write_frame_eq (addr : Nat) (buf : List Nat) (hb : ∀ b ∈ buf, b < 256)
    (hn : buf.length ≤ 127) :
    ddcci_write_frame addr buf =
      [MAGIC_1, MAGIC_2 ||| buf.length] ++ buf ++
        [xorAll ((addr % 256) <<< 1 ^^^ MAGIC_1 ^^^ (MAGIC_2 ||| buf.length)) buf % 256] := by
  have hlt := or_magic_lt buf.length hn
  simp only [ddcci_write_frame, Nat.mod_eq_of_lt hlt, write_loop_eq _ _ _ hb]

/-- C2. For every connection and payload of `n ≤ 127` bytes, the bytes that
`ddcci_write` hands to the bus write are the `n + 3` bytes
`[0x51, 0x80 | n, payload, c]`, where `c` is the low 8 bits of
`(address << 1) ^ 0x51 ^ (0x80 | n) ^ payload bytes`; the XOR of
`(address << 1) mod 256` with all bytes sent is zero. -/
theorem ddcci_write_frame_format (mon : monitor) (buf : List Nat) (clock : Option timeval)
    (ioctl : Int) (hb : ∀ b ∈ buf, b < 256) (hn : buf.length ≤ 127) :
    (ddcci_write mon buf clock ioctl).frame.length = buf.length + 3 ∧
    (ddcci_write mon buf clock ioctl).i2cLen = buf.length + 3 ∧
    (ddcci_write mon buf clock ioctl).overrun = false ∧
    (ddcci_write mon buf clock ioctl).frame =
      [0x51, 0x80 ||| buf.length] ++ buf ++
        [xorAll (mon.addr <<< 1 ^^^ 0x51 ^^^ (0x80 ||| buf.length)) buf % 256] ∧
    xorAll ((mon.addr <<< 1) % 256) (ddcci_write mon buf clock ioctl).frame = 0 := by
  have hfr := ddcci_write_frame_eq mon.addr buf hb hn
  have hlt := or_magic_lt buf.length hn
  have hx : xorAll ((mon.addr % 256) <<< 1 ^^^ MAGIC_1 ^^^ (MAGIC_2 ||| buf.length)) buf % 256
      = xorAll (mon.addr <<< 1 ^^^ 0x51 ^^^ (0x80 ||| buf.length)) buf % 256 := by
    rw [xorAll_seed, xorAll_seed (mon.addr <<< 1 ^^^ 0x51 ^^^ (0x80 ||| buf.length))]
    rw [xor_mod_256, xor_mod_256 _ (xorAll 0 buf)]
    congr 1
    rw [xor_mod_256, xor_mod_256 (mon.addr <<< 1 ^^^ 0x51)]
    congr 1
    rw [xor_mod_256, xor_mod_256 (mon.addr <<< 1)]
    congr 1
    simp only [Nat.shiftLeft_eq]
    omega
  have hlen : (ddcci_write_frame mon.addr buf).length = buf.length + 3 := by
    rw [hfr]; simp
  refine ⟨?_, ?_, ?_, ?_, ?_⟩
  · exact hlen
  · show (ddcci_write_frame mon.addr buf).length % 256 = _
    rw [hlen]; omega
  · show decide (MAX_BYTES + 3 < (ddcci_write_frame mon.addr buf).length) = false
    rw [hlen]; simp [MAX_BYTES]; omega
  · show ddcci_write_frame mon.addr buf = _
    rw [hfr, hx]; rfl
  · show xorAll _ (ddcci_write_frame mon.addr buf) = 0
    rw [hfr, hx, xorAll_append, xorAll_append]
    simp only [xorAll_cons, xorAll_nil, MAGIC_1, MAGIC_2]
    rw [xorAll_seed, xorAll_seed (mon.addr <<< 1 ^^^ 0x51 ^^^ (0x80 ||| buf.length))]
    have h1 : xorAll 0 buf < 256 := xorAll_lt 0 buf (by decide) hb
    have h2 : (mon.addr <<< 1 % 256 ^^^ 81 ^^^ (128 ||| buf.length)) < 256 := by
      apply Nat.xor_lt_two_pow (n := 8)
      · apply Nat.xor_lt_two_pow (n := 8)
        · exact Nat.mod_lt _ (by decide)
        · decide
      · exact hlt
    rw [xor_mod_256 _ (xorAll 0 buf), Nat.mod_eq_of_lt h1]
    rw [xor_mod_256 _ (128 ||| buf.length), xor_mod_256 _ 81]
    have h3 : (128 ||| buf.length) % 256 = 128 ||| buf.length := Nat.mod_eq_of_lt hlt
    rw [h3]
    simp
    
theorem ddcci_write_frame_format_witness :
    (ddcci_write sample_mon [1, 0x10] none 1).frame = [0x51, 0x82, 1, 0x10, 0xac] := by
  have h := ddcci_write_frame_format sample_mon [1, 0x10] none 1 (by decide) (by decide)
  exact h.2.2.2.1

/-! ## The frame received -/

/-- The validation of `ddcci_read` on a buffer that holds the `len + 3` bytes
asked for, as one conditional. -/
theorem ddcci_read_validate_eq (addr len : Nat) (raw : List Nat) (hraw : len + 3 ≤ raw.length) :
    ddcci_read_validate addr len raw =
      if raw.getD 0 0 ≠ addr * 2 % 2 ^ 32 then .error .address
      else if raw.getD 1 0 &&& 0x80 = 0 then .error .magic
      else if raw.getD 1 0 &&& 0x7f > len then .error .length
      else if xorAll 0x50 (raw.take ((raw.getD 1 0 &&& 0x7f) + 3)) ≠ 0 then .error .checksum
      else .ok ((raw.drop 2).take (raw.getD 1 0 &&& 0x7f)) := by
  match raw, hraw with
  | b0 :: b1 :: rest, hraw =>
    have h127 : b1 &&& 0x7f ≤ 127 := Nat.and_le_right
    simp only [ddcci_read_validate, List.getD_cons_zero, List.getD_cons_succ, MAGIC_2,
      MAX_BYTES, MAGIC_XOR, List.getElem?_cons_zero, List.getElem?_cons_succ]
    by_cases h0 : b0 ≠ addr * 2 % 2 ^ 32
    · rw [if_pos h0, if_pos h0]
    · rw [if_neg h0, if_neg h0]
      by_cases h1 : b1 &&& 128 = 0
      · rw [if_pos h1, if_pos h1]
      · rw [if_neg h1, if_neg h1]
        by_cases h2 : b1 &&& 0x7f > len
        · rw [if_pos (Or.inl h2), if_pos h2]
        · have hx := xor_loop_eq (b0 :: b1 :: rest) ((b1 &&& 0x7f) + 3) 0 0x50
            (by simp only [List.length_cons] at hraw ⊢; omega)
          simp only [List.drop_zero] at hx
          have hor : ¬ (b1 &&& 0x7f > len ∨ b1 &&& 0x7f > 127) := by omega
          rw [if_neg hor, if_neg h2, hx]

/-- C3. For a successful bus read (`ioctl > 0`) that left at least the
`len + 3` bytes asked for in the receive buffer `raw`, `ddcci_read` succeeds
exactly when `raw[0] == mon->addr * 2` (an `unsigned int` product), `raw[1]`
has bit 0x80 set, `L = raw[1] & 0x7f` is at most `len`, and the XOR of 0x50 with
`raw[0..L+2]` is zero; it then returns `L` and the payload `raw[2 .. 2+L)`. When
a check fails it returns -1, and a first byte other than `mon->addr * 2` is
rejected whatever the rest holds. -/
theorem ddcci_read_accepts_iff (mon : monitor) (len : Nat) (clock : Option timeval)
    (ioctl : Int) (raw : List Nat) (hio : 0 < ioctl) (hraw : len + 3 ≤ raw.length) :
    (∀ p, (ddcci_read mon len clock ioctl raw).res = .ok p ↔
      (raw.getD 0 0 = mon.addr * 2 % 2 ^ 32 ∧ raw.getD 1 0 &&& 0x80 ≠ 0 ∧
        raw.getD 1 0 &&& 0x7f ≤ len ∧
        xorAll 0x50 (raw.take ((raw.getD 1 0 &&& 0x7f) + 3)) = 0 ∧
        p = (raw.drop 2).take (raw.getD 1 0 &&& 0x7f))) ∧
    (∀ p, (ddcci_read mon len clock ioctl raw).res = .ok p →
      (ddcci_read mon len clock ioctl raw).ret = (raw.getD 1 0 &&& 0x7f : Nat)) ∧
    ((∀ p, (ddcci_read mon len clock ioctl raw).res ≠ .ok p) →
      (ddcci_read mon len clock ioctl raw).ret = -1) ∧
    (raw.getD 0 0 ≠ mon.addr * 2 % 2 ^ 32 →
      (ddcci_read mon len clock ioctl raw).res = .error .address) := by
  have hrd : ¬ i2c_read ioctl ≤ 0 := by
    unfold i2c_read
    split <;> omega
  have hres : (ddcci_read mon len clock ioctl raw).res = ddcci_read_validate mon.addr len raw := by
    simp only [ddcci_read, if_neg hrd]
  have hv := ddcci_read_validate_eq mon.addr len raw hraw
  have hiff : ∀ p, (ddcci_read mon len clock ioctl raw).res = .ok p ↔
      (raw.getD 0 0 = mon.addr * 2 % 2 ^ 32 ∧ raw.getD 1 0 &&& 0x80 ≠ 0 ∧
        raw.getD 1 0 &&& 0x7f ≤ len ∧
        xorAll 0x50 (raw.take ((raw.getD 1 0 &&& 0x7f) + 3)) = 0 ∧
        p = (raw.drop 2).take (raw.getD 1 0 &&& 0x7f)) := by
    intro p
    rw [hres, hv]
    split_ifs with h0 h1 h2 h3
    · constructor
      · intro h; cases h
      · rintro ⟨h, -⟩; exact absurd h h0
    · constructor
      · intro h; cases h
      · rintro ⟨-, h, -⟩; exact absurd h1 h
    · constructor
      · intro h; cases h
      · rintro ⟨-, -, h, -⟩; omega
    · constructor
      · intro h; cases h
      · rintro ⟨-, -, -, h, -⟩; exact absurd h h3
    · constructor
      · intro h
        injection h with h
        exact ⟨not_not.mp h0, h1, by omega, not_not.mp h3, h.symm⟩
      · rintro ⟨-, -, -, -, h⟩
        rw [h]
  refine ⟨hiff, ?_, ?_, ?_⟩
  · intro p hp
    have hp2 := ((hiff p).mp hp).2.2.2.2
    have hL : raw.getD 1 0 &&& 0x7f ≤ len := ((hiff p).mp hp).2.2.1
    simp only [ReadOut.ret, hp]
    rw [hp2, List.length_take, List.length_drop]
    congr 1
    omega
  · intro hno
    cases hr : (ddcci_read mon len clock ioctl raw).res with
    | ok p => exact absurd hr (hno p)
    | error e => simp only [ReadOut.ret, hr]
  · intro h0
    rw [hres, hv, if_pos h0]

theorem ddcci_read_accepts_iff_witness :
    (0 : Int) < 1 ∧ 8 + 3 ≤ [0x6e, 0x81, 0xbe, 0x01, 0, 0, 0, 0, 0, 0, 0].length ∧
    (ddcci_read sample_mon 8 none 1 [0x6e, 0x81, 0xbe, 0x01, 0, 0, 0, 0, 0, 0, 0]).res
      = .ok [0xbe] :=
  ⟨by decide, by decide,
    ((ddcci_read_accepts_iff sample_mon 8 none 1 [0x6e, 0x81, 0xbe, 0x01, 0, 0, 0, 0, 0, 0, 0]
      (by decide) (by decide)).1 [0xbe]).mpr (by decide)⟩

/-! ## Sending against receiving -/

/-- C1 (as stated, refuted). At the default address 0x37 the frame that
`ddcci_write` builds for the payload `[0x01, 0x10]` is rejected by `ddcci_read`
at the address test: the payload is not returned. -/
theorem roundtrip_write_read_fails :
    (ddcci_read sample_mon 2 none 1
        (ddcci_write sample_mon [0x01, 0x10] none 1).frame).res = .error .address ∧
    (ddcci_read sample_mon 2 none 1
        (ddcci_write sample_mon [0x01, 0x10] none 1).frame).res ≠ .ok [0x01, 0x10] := by
  have h : (ddcci_read sample_mon 2 none 1
      (ddcci_write sample_mon [0x01, 0x10] none 1).frame).res = .error .address := by rfl
  refine ⟨h, ?_⟩
  rw [h]
  intro hc
  cases hc

theorem ddcci_write_frame_head (addr : Nat) (buf : List Nat) :
    ∃ b1 rest, ddcci_write_frame addr buf = MAGIC_1 :: b1 :: rest := by
  have key : ∀ (bs out : List Nat) (x : Nat) (a b : Nat) (tl : List Nat), out = a :: b :: tl →
      ∃ tl2, (write_loop bs out x).1 = a :: b :: tl2 := by
    intro bs
    induction bs with
    | nil => intro out x a b tl h; exact ⟨tl, by simp [write_loop, h]⟩
    | cons c bs ih =>
      intro out x a b tl h
      rw [write_loop]
      exact ih _ _ a b (tl ++ [c % 256]) (by simp [h])
  obtain ⟨tl2, h2⟩ := key buf [MAGIC_1, (MAGIC_2 ||| buf.length) % 256]
    ((addr % 256) <<< 1 ^^^ MAGIC_1 ^^^ (MAGIC_2 ||| buf.length) % 256) _ _ [] rfl
  refine ⟨(MAGIC_2 ||| buf.length) % 256, tl2 ++ [(write_loop buf
    [MAGIC_1, (MAGIC_2 ||| buf.length) % 256]
    ((addr % 256) <<< 1 ^^^ MAGIC_1 ^^^ (MAGIC_2 ||| buf.length) % 256)).2 % 256], ?_⟩
  simp only [ddcci_write_frame, h2]
  rfl

/-- C1 (amended). The codec is not symmetric. For every address, every
payload of length 0 to 124 and every maximum length of at least the payload
length: (1) `ddcci_read` rejects the exact frame that `ddcci_write` builds for
the payload, at the address test (its first byte is 0x51, never
`address * 2`); (2) the frame that `ddcci_read` decodes back to the payload is
the reply format `[address * 2, 0x80 | n, payload, c]` with `c` the XOR of 0x50
and the bytes before it. -/
theorem roundtrip_reply_format (addr len : Nat) (buf : List Nat)
    (hn : buf.length ≤ 124) (hl : buf.length ≤ len) :
    ddcci_read_validate addr len (ddcci_write_frame addr buf) = .error .address ∧
    ddcci_read_validate addr len
      ([addr * 2 % 2 ^ 32, 0x80 ||| buf.length] ++ buf ++
        [xorAll 0x50 ([addr * 2 % 2 ^ 32, 0x80 ||| buf.length] ++ buf)]) = .ok buf := by
  constructor
  · obtain ⟨b1, rest, h⟩ := ddcci_write_frame_head addr buf
    rw [h]
    have hne : MAGIC_1 ≠ addr * 2 % 2 ^ 32 := by
      simp only [MAGIC_1]
      omega
    simp only [ddcci_read_validate, List.getElem?_cons_zero, List.getElem?_cons_succ]
    rw [if_pos hne]
  · have hL : (0x80 ||| buf.length) &&& 0x7f = buf.length :=
      or_magic_and_7f buf.length (by omega)
    have hM : (0x80 ||| buf.length) &&& 0x80 ≠ 0 := or_magic_and_magic buf.length
    have hor : ¬ (buf.length > len ∨ buf.length > MAX_BYTES) := by
      simp only [MAX_BYTES]; omega
    simp only [ddcci_read_validate, List.cons_append, List.nil_append,
      List.getElem?_cons_zero, List.getElem?_cons_succ, MAGIC_2, MAGIC_XOR]
    rw [if_neg (by simp), if_neg hM, hL, if_neg hor, xor_loop_eq _ _ _ _ (by simp)]
    simp only [List.drop_zero]
    have ht : ∀ c, List.take (buf.length + 3)
        (addr * 2 % 2 ^ 32 :: (128 ||| buf.length) :: (buf ++ [c])) =
        addr * 2 % 2 ^ 32 :: (128 ||| buf.length) :: (buf ++ [c]) :=
      fun c => List.take_of_length_le (by simp)
    simp only [ht]
    simp [xorAll_cons, xorAll_append, xorAll_nil]

theorem roundtrip_reply_format_witness :
    [0x01, 0x10].length ≤ 124 ∧ [0x01, 0x10].length ≤ 2 ∧
    ddcci_read_validate 0x37 2 (ddcci_write_frame 0x37 [0x01, 0x10]) = .error .address ∧
    ddcci_read_validate 0x37 2
        ([0x37 * 2 % 2 ^ 32, 0x80 ||| [0x01, 0x10].length] ++ [0x01, 0x10] ++
          [xorAll 0x50 ([0x37 * 2 % 2 ^ 32, 0x80 ||| [0x01, 0x10].length] ++ [0x01, 0x10])])
      = .ok [0x01, 0x10] :=
  ⟨by decide, by decide, roundtrip_reply_format 0x37 2 [0x01, 0x10] (by decide) (by decide)⟩

/-! ## Single bit flips -/

theorem xorAll_set (l : List Nat) (i v s : Nat) (hi : i < l.length) :
    xorAll s (l.set i v) = xorAll s l ^^^ (l.getD i 0 ^^^ v) := by
  induction l generalizing i s with
  | nil => simp at hi
  | cons b l ih =>
    cases i with
    | zero =>
      simp only [List.set_cons_zero, xorAll_cons, List.getD_cons_zero]
      rw [xorAll_seed (s ^^^ v), xorAll_seed (s ^^^ b)]
      apply Nat.eq_of_testBit_eq
      intro j
      simp only [Nat.testBit_xor]
      generalize s.testBit j = a1
      generalize v.testBit j = a2
      generalize b.testBit j = a3
      generalize (xorAll 0 l).testBit j = a4
      revert a1 a2 a3 a4
      decide
    | succ i =>
      simp only [List.set_cons_succ, xorAll_cons, List.getD_cons_succ]
      exact ih i (s ^^^ b) (by simpa using hi)

theorem xor_two_pow_ne (x k : Nat) : x ^^^ 2 ^ k ≠ x := by
  intro h
  have h2 : x ^^^ 2 ^ k = x ^^^ 0 := by rw [Nat.xor_zero]; exact h
  have h3 := Nat.xor_right_inj.mp h2
  exact absurd h3 (Nat.pos_iff_ne_zero.mp (Nat.two_pow_pos k))

theorem flip_magic_bit (x : Nat) (h : x &&& 128 ≠ 0) : (x ^^^ 2 ^ 7) &&& 128 = 0 := by
  have h7 : x.testBit 7 = true := by
    by_contra hc
    apply h
    apply Nat.eq_of_testBit_eq
    intro j
    have e : (128 : Nat) = 2 ^ 7 := by norm_num
    rw [e, Nat.testBit_and, Nat.testBit_two_pow, Nat.zero_testBit]
    by_cases hj : 7 = j
    · subst hj; simp [hc]
    · simp [hj]
  apply Nat.eq_of_testBit_eq
  intro j
  have e : (128 : Nat) = 2 ^ 7 := by norm_num
  rw [e, Nat.testBit_and, Nat.testBit_xor, Nat.testBit_two_pow, Nat.zero_testBit]
  by_cases hj : 7 = j
  · subst hj; simp [h7]
  · simp [hj]

theorem flipBit_length (raw : List Nat) (i k : Nat) : (flipBit raw i k).length = raw.length := by
  simp [flipBit]

theorem flipBit_getD_ne (raw : List Nat) (i j k : Nat) (h : i ≠ j) :
    (flipBit raw i k).getD j 0 = raw.getD j 0 := by
  simp [flipBit, List.getElem?_set_ne h]

theorem flipBit_getD_self (raw : List Nat) (i k : Nat) (h : i < raw.length) :
    (flipBit raw i k).getD i 0 = raw.getD i 0 ^^^ 2 ^ k := by
  simp [flipBit, List.getElem?_set_self h]

/-- C4 (as stated, refuted). The reply `6e 81 be 01` is accepted at address
0x37 with payload `be`; with bit 0 of its length byte flipped (`6e 80 be 01`) it
is still accepted, now with an empty payload; and with bit 0 of its address
byte flipped it is rejected at the address test, not at the checksum test. -/
theorem single_bit_flip_undetected :
    (ddcci_read sample_mon 1 none 1 [0x6e, 0x81, 0xbe, 0x01]).res = .ok [0xbe] ∧
    (ddcci_read sample_mon 1 none 1 (flipBit [0x6e, 0x81, 0xbe, 0x01] 1 0)).res = .ok [] ∧
    (ddcci_read sample_mon 1 none 1 (flipBit [0x6e, 0x81, 0xbe, 0x01] 0 0)).res
      = .error .address := by
  refine ⟨by rfl, by rfl, by rfl⟩

/-- C4 (amended). For a reply buffer of at least `len + 3` bytes that the
validation of `ddcci_read` accepts with payload `p`, flipping one bit `k < 8`
of the byte at index `i < p.length + 3` is answered as follows: in the address
echo (`i = 0`) by the address failure; bit 7 of the length byte by the
length-marker failure; in a payload byte or the checksum byte (`i ≥ 2`) by the
checksum failure. (Nothing is claimed for bits 0..6 of the length byte.) -/
theorem single_bit_flip_detected (addr len : Nat) (raw p : List Nat) (i k : Nat)
    (hraw : len + 3 ≤ raw.length) (hacc : ddcci_read_validate addr len raw = .ok p)
    (hi : i < p.length + 3) (hk : k < 8) :
    (i = 0 → ddcci_read_validate addr len (flipBit raw i k) = .error .address) ∧
    (i = 1 → k = 7 → ddcci_read_validate addr len (flipBit raw i k) = .error .magic) ∧
    (2 ≤ i → ddcci_read_validate addr len (flipBit raw i k) = .error .checksum) := by
  have hv := ddcci_read_validate_eq addr len raw hraw
  rw [hacc] at hv
  have hf := ddcci_read_validate_eq addr len (flipBit raw i k)
    (by rw [flipBit_length]; exact hraw)
  split_ifs at hv with h0 h1 h2 h3
  have hp : p = (raw.drop 2).take (raw.getD 1 0 &&& 0x7f) := by
    injection hv
  have hpl : p.length = raw.getD 1 0 &&& 0x7f := by
    rw [hp, List.length_take, List.length_drop]
    omega
  have hil : i < raw.length := by omega
  refine ⟨?_, ?_, ?_⟩
  · intro hi0
    subst hi0
    rw [hf, flipBit_getD_self raw 0 k hil, if_pos]
    rw [not_not.mp h0] at *
    exact xor_two_pow_ne _ _
  · intro hi1 hk7
    subst hi1 hk7
    rw [hf, flipBit_getD_ne raw 1 0 7 (by decide), flipBit_getD_self raw 1 7 hil, if_neg h0,
      if_pos (flip_magic_bit _ h1)]
  · intro hi2
    have e0 : (flipBit raw i k).getD 0 0 = raw.getD 0 0 := flipBit_getD_ne raw i 0 k (by omega)
    have e1 : (flipBit raw i k).getD 1 0 = raw.getD 1 0 := flipBit_getD_ne raw i 1 k (by omega)
    rw [hf, e0, e1, if_neg h0, if_neg h1, if_neg h2, if_pos]
    have ht : (flipBit raw i k).take ((raw.getD 1 0 &&& 0x7f) + 3) =
        (raw.take ((raw.getD 1 0 &&& 0x7f) + 3)).set i (raw.getD i 0 ^^^ 2 ^ k) := by
      simp only [flipBit, List.set_take]
    have hg : (raw.take ((raw.getD 1 0 &&& 0x7f) + 3)).getD i 0 = raw.getD i 0 := by
      rw [List.getD_eq_getElem?_getD, List.getD_eq_getElem?_getD raw i,
        List.getElem?_take_of_lt (by omega)]
    rw [ht, xorAll_set _ _ _ _ (by rw [List.length_take]; omega), hg, not_not.mp h3,
      Nat.zero_xor, ← Nat.xor_assoc, Nat.xor_self, Nat.zero_xor]
    exact Nat.pos_iff_ne_zero.mp (Nat.two_pow_pos k)

theorem single_bit_flip_detected_witness :
    ddcci_read_validate 0x37 1 (flipBit [0x6e, 0x81, 0xbe, 0x01] 2 5) = .error .checksum :=
  (single_bit_flip_detected 0x37 1 [0x6e, 0x81, 0xbe, 0x01] [0xbe] 2 5 (by decide) (by rfl)
    (by decide) (by decide)).2.2 (by decide)

/-! ## The bus timer -/

/-- C6 (the code at the failing input). The last write was at 100 s 999999 us
and it is now 101 s 0 us: one microsecond has elapsed, yet `ddcci_delay` asks
for no sleep at all, for a write as for a read, where 44999 us are due. -/
theorem ddcci_delay_second_boundary :
    timeval.micros { tv_sec := 101, tv_usec := 0 }
      - timeval.micros { tv_sec := 100, tv_usec := 999999 } = 1 ∧
    (ddcci_delay { sample_mon with last := { tv_sec := 100, tv_usec := 999999 } } true
      (some { tv_sec := 101, tv_usec := 0 })).2 = 0 ∧
    (ddcci_delay { sample_mon with last := { tv_sec := 100, tv_usec := 999999 } } false
      (some { tv_sec := 101, tv_usec := 0 })).2 = 0 ∧
    (ddcci_delay { sample_mon with last := { tv_sec := 100, tv_usec := 999999 } } true
      (some { tv_sec := 101, tv_usec := 0 })).1.last = { tv_sec := 101, tv_usec := 0 } := by
  refine ⟨by rfl, by rfl, by rfl, by rfl⟩

theorem ddcci_delay_wait_micros (last now : timeval) (h0 : 0 ≤ now.tv_usec)
    (h1 : now.tv_usec < 1000000) :
    (ddcci_delay_wait last now).1.micros = now.micros + (ddcci_delay_wait last now).2 := by
  unfold ddcci_delay_wait
  simp only [DELAY, toULong, toLong, timeval.micros]
  split_ifs <;> simp only [Int.toNat_of_nonneg, Nat.cast_ofNat] <;> omega

theorem ddcci_delay_wait_same_second (last now : timeval) (hs : now.tv_sec = last.tv_sec)
    (hl : last.tv_usec ≤ now.tv_usec) (h1 : now.tv_usec < 1000000) (h0 : 0 ≤ last.tv_usec)
    (he : now.micros - last.micros < 45000) :
    ((ddcci_delay_wait last now).2 : Int) = 45000 - (now.micros - last.micros) := by
  unfold ddcci_delay_wait
  simp only [DELAY, toULong, toLong, timeval.micros] at *
  split_ifs <;> simp only [Int.toNat_of_nonneg, Nat.cast_ofNat] <;> omega

theorem ddcci_delay_wait_next_second (last now : timeval) (hs : now.tv_sec = last.tv_sec + 1)
    (h0 : 0 ≤ now.tv_usec) (h1 : now.tv_usec < 1000000) (h2 : 0 ≤ last.tv_usec)
    (h3 : last.tv_usec < 1000000) :
    (ddcci_delay_wait last now).2 = 0 := by
  unfold ddcci_delay_wait
  simp only [DELAY, toULong, toLong] at *
  split_ifs <;> first | rfl | omega

/-- C7. `ddcci_delay` with `iswrite = 0` returns the connection unchanged,
whatever the time source gives, and so does `ddcci_read`; with `iswrite = 1`
and a time source that gave the (normalised) time `now`, only the timestamp
changes and it denotes `now` advanced by the microseconds slept. -/
theorem ddcci_delay_marks_writes_only (mon : monitor) :
    (∀ clock, (ddcci_delay mon false clock).1 = mon) ∧
    (∀ len clock ioctl data, (ddcci_read mon len clock ioctl data).mon = mon) ∧
    (∀ now : timeval, 0 ≤ now.tv_usec → now.tv_usec < 1000000 →
      (ddcci_delay mon true (some now)).1 =
        { mon with last := (ddcci_delay mon true (some now)).1.last } ∧
      (ddcci_delay mon true (some now)).1.last.micros
        = now.micros + (ddcci_delay mon true (some now)).2) := by
  have hread : ∀ clock, (ddcci_delay mon false clock).1 = mon := by
    intro clock
    cases clock <;> rfl
  refine ⟨hread, ?_, ?_⟩
  · intro len clock ioctl data
    exact hread clock
  · intro now h0 h1
    exact ⟨rfl, ddcci_delay_wait_micros mon.last now h0 h1⟩

theorem ddcci_delay_marks_writes_only_witness :
    (ddcci_delay sample_mon true (some { tv_sec := 0, tv_usec := 20000 })).1.last.micros
      = timeval.micros { tv_sec := 0, tv_usec := 20000 }
        + (ddcci_delay sample_mon true (some { tv_sec := 0, tv_usec := 20000 })).2 :=
  ((ddcci_delay_marks_writes_only sample_mon).2.2 { tv_sec := 0, tv_usec := 20000 }
    (by decide) (by decide)).2

/-! ## Control read -/

/-- C9 (as stated, refuted). With a chunk source that answers the offsets 0, 32
and 64 with 32, 32 and 1 content bytes, `ddcci_caps` does not stop after the
third chunk: it asks for a fourth one, at offset 65, and since this source
does not answer it the result is a failure. And a reply whose whole payload
is one byte long does not end the loop with success either: it is an invalid
sequence. -/
theorem caps_asks_fourth_chunk :
    (ddcci_caps (chunk_source caps_source_32_32_1) 256 0).reqs = [0, 32, 64, 65] ∧
    (ddcci_caps (chunk_source caps_source_32_32_1) 256 0).ret = .readFailed ∧
    (ddcci_caps (chunk_source caps_source_32_32_1) 256 0).ret.toInt = -1 ∧
    (ddcci_caps (chunk_source (fun _ _ => some [0xe3])) 256 0).ret = .invalidSequence := by
  refine ⟨by rfl, by rfl, by rfl, by rfl⟩

/-- C9 (amended). In any iteration of the loop of `ddcci_caps`, a reply of
exactly 3 bytes (opcode 0xe3 and the running offset, no content) ends the loop
with success and no further request; a reply of at most 2 bytes makes it fail.
A source answering the offsets 0, 32, 64 and 65 with 32, 32, 1 and 0 content
bytes gets exactly these four requests, the 65 bytes are assembled in order and
NUL-terminated, and the result is 65. -/
theorem caps_stops_at_empty_chunk {σ : Type} (raw_caps : σ → Nat → Option (List Nat) × σ)
    (buflen fuel : Nat) (st st1 : σ) (offset : Nat) (buffer reqs payload : List Nat)
    (h : raw_caps st offset = (some payload, st1)) :
    (payload.length = 3 → payload.getD 0 0 = 0xe3 →
        payload.getD 1 0 * 256 + payload.getD 2 0 = offset →
      (caps_loop raw_caps buflen (fuel + 1) st offset buffer reqs).ret = .ok buffer.length ∧
      (caps_loop raw_caps buflen (fuel + 1) st offset buffer reqs).buffer = buffer ++ [0] ∧
      (caps_loop raw_caps buflen (fuel + 1) st offset buffer reqs).reqs = reqs ++ [offset]) ∧
    (payload.length ≤ 2 →
      (caps_loop raw_caps buflen (fuel + 1) st offset buffer reqs).ret = .invalidSequence ∧
      (caps_loop raw_caps buflen (fuel + 1) st offset buffer reqs).reqs = reqs ++ [offset]) ∧
    (ddcci_caps (chunk_source caps_source_32_32_1_0) 256 0).reqs = [0, 32, 64, 65] ∧
    (ddcci_caps (chunk_source caps_source_32_32_1_0) 256 0).ret = .ok 65 ∧
    (ddcci_caps (chunk_source caps_source_32_32_1_0) 256 0).buffer
      = List.replicate 32 0x41 ++ List.replicate 32 0x42 ++ [0x43, 0] := by
  refine ⟨?_, ?_, by rfl, by rfl, by rfl⟩
  · intro hl h0 h12
    have hc : ¬ (payload.length < 3 ∨ payload.getD 0 0 ≠ DDCCI_REPLY_CAPS ∨
        payload.getD 1 0 * 256 + payload.getD 2 0 ≠ offset) := by
      rintro (hc | hc | hc)
      · omega
      · exact hc h0
      · exact hc h12
    have hd : payload.drop 3 = [] := List.drop_eq_nil_of_le (by omega)
    have h3 : ¬ payload.length > 3 := by omega
    unfold caps_loop
    simp only [h]
    rw [if_neg hc, hd]
    simp only [caps_copy]
    rw [if_neg (by simp), if_neg h3]
    exact ⟨rfl, rfl, rfl⟩
  · intro hl
    have hc : payload.length < 3 ∨ payload.getD 0 0 ≠ DDCCI_REPLY_CAPS ∨
        payload.getD 1 0 * 256 + payload.getD 2 0 ≠ offset := Or.inl (by omega)
    unfold caps_loop
    simp only [h]
    rw [if_pos hc]
    exact ⟨rfl, rfl⟩

theorem caps_stops_at_empty_chunk_witness :
    (caps_loop (chunk_source caps_source_1_0) 8 (0 + 1) 1 1 [0x41] [0]).ret = .ok 1 :=
  ((caps_stops_at_empty_chunk (chunk_source caps_source_1_0) 8 0 1 2 1 [0x41] [0] [0xe3, 0, 1]
    (by rfl)).1 (by rfl) (by rfl) (by rfl)).1

theorem caps_copy_ok (buflen : Nat) (c buffer : List Nat)
    (h : buffer.length + c.length < buflen) : caps_copy buflen c buffer = (buffer ++ c, true) := by
  induction c generalizing buffer with
  | nil => simp [caps_copy]
  | cons b bs ih =>
    have h1 : ¬ (buffer ++ [b]).length ≥ buflen := by
      simp only [List.length_append, List.length_cons, List.length_nil] at h ⊢
      omega
    rw [caps_copy, if_neg h1, ih (buffer ++ [b])
      (by simp only [List.length_append, List.length_cons, List.length_nil] at h ⊢; omega)]
    simp

theorem caps_copy_fail (buflen : Nat) (c buffer : List Nat) (hc : c ≠ [])
    (h : buflen ≤ buffer.length + c.length) : (caps_copy buflen c buffer).2 = false := by
  induction c generalizing buffer with
  | nil => exact absurd rfl hc
  | cons b bs ih =>
    rw [caps_copy]
    by_cases h1 : (buffer ++ [b]).length ≥ buflen
    · rw [if_pos h1]
    · rw [if_neg h1]
      simp only [List.length_append, List.length_cons, List.length_nil] at h h1
      apply ih
      · intro hb
        subst hb
        simp only [List.length_nil] at h
        omega
      · simp only [List.length_append, List.length_cons, List.length_nil]
        omega

theorem chunk_offset_zero (cs : List (List Nat)) : chunk_offset cs 0 = 0 := by
  simp [chunk_offset]

theorem chunk_offset_succ (c : List Nat) (cs : List (List Nat)) (j : Nat) :
    chunk_offset (c :: cs) (j + 1) = c.length + chunk_offset cs j := by
  simp [chunk_offset]

/-- The loop of `ddcci_caps` run from request `k`, offset `offset` and output
`buffer` against a source whose next answers are the well-formed chunks with
contents `rest` followed by an empty chunk. -/
theorem caps_loop_chunks (src : Nat → Nat → Option (List Nat)) (buflen : Nat)
    (rest : List (List Nat)) :
    ∀ (fuel k offset : Nat) (buffer reqs : List Nat),
    (∀ c ∈ rest, c ≠ []) →
    (∀ j, j ≤ rest.length → ∃ b1 b2, b1 * 256 + b2 = offset + chunk_offset rest j ∧
      src (k + j) (offset + chunk_offset rest j) = some (0xe3 :: b1 :: b2 :: rest.getD j [])) →
    buffer.length < buflen → buflen < fuel + buffer.length →
    (buffer.length + rest.flatten.length < buflen →
      (caps_loop (chunk_source src) buflen fuel k offset buffer reqs).ret
        = .ok (buffer.length + rest.flatten.length) ∧
      (caps_loop (chunk_source src) buflen fuel k offset buffer reqs).buffer
        = buffer ++ rest.flatten ++ [0]) ∧
    (buflen ≤ buffer.length + rest.flatten.length →
      (caps_loop (chunk_source src) buflen fuel k offset buffer reqs).ret = .bufferTooSmall) := by
  induction rest with
  | nil =>
    intro fuel k offset buffer reqs _ hsrc hb hf
    obtain ⟨b1, b2, h12, hs⟩ := hsrc 0 (Nat.le_refl _)
    simp only [chunk_offset_zero, Nat.add_zero, List.getD_nil] at h12 hs
    obtain ⟨f, rfl⟩ : ∃ f, fuel = f + 1 := ⟨fuel - 1, by omega⟩
    have hc : ¬ ([0xe3, b1, b2].length < 3 ∨ [0xe3, b1, b2].getD 0 0 ≠ DDCCI_REPLY_CAPS ∨
        [0xe3, b1, b2].getD 1 0 * 256 + [0xe3, b1, b2].getD 2 0 ≠ offset) := by
      rintro (hc | hc | hc)
      · simp at hc
      · exact hc rfl
      · exact hc h12
    unfold caps_loop
    simp only [chunk_source, hs]
    rw [if_neg hc]
    simp only [List.drop_succ_cons, List.drop_zero, caps_copy, List.flatten_nil,
      List.length_nil, Nat.add_zero, List.append_nil]
    rw [if_neg (by simp), if_neg (by simp)]
    constructor
    · intro _; exact ⟨rfl, rfl⟩
    · intro h; omega
  | cons c rest ih =>
    intro fuel k offset buffer reqs hne hsrc hb hf
    obtain ⟨b1, b2, h12, hs⟩ := hsrc 0 (Nat.zero_le _)
    simp only [chunk_offset_zero, Nat.add_zero, List.getD_cons_zero] at h12 hs
    obtain ⟨f, rfl⟩ : ∃ f, fuel = f + 1 := ⟨fuel - 1, by omega⟩
    have hcne : c ≠ [] := hne c (List.mem_cons_self _ _)
    have hcl : 0 < c.length := List.length_pos.mpr hcne
    have hc : ¬ ((0xe3 :: b1 :: b2 :: c).length < 3 ∨
        (0xe3 :: b1 :: b2 :: c).getD 0 0 ≠ DDCCI_REPLY_CAPS ∨
        (0xe3 :: b1 :: b2 :: c).getD 1 0 * 256 + (0xe3 :: b1 :: b2 :: c).getD 2 0 ≠ offset) := by
      rintro (hc | hc | hc)
      · simp only [List.length_cons] at hc
        omega
      · exact hc rfl
      · exact hc h12
    have hlen3 : (0xe3 :: b1 :: b2 :: c).length > 3 := by
      simp only [List.length_cons]; omega
    have hfl : (c :: rest).flatten.length = c.length + rest.flatten.length := by
      simp
    unfold caps_loop
    simp only [chunk_source, hs]
    rw [if_neg hc]
    simp only [List.drop_succ_cons, List.drop_zero]
    by_cases hfit : buffer.length + c.length < buflen
    · rw [caps_copy_ok buflen c buffer hfit]
      rw [if_neg (by simp), if_pos hlen3]
      have hoff : offset + ((0xe3 :: b1 :: b2 :: c).length - 3) = offset + c.length := by
        simp
      rw [hoff]
      have hih := ih f (k + 1) (offset + c.length) (buffer ++ c) (reqs ++ [offset])
        (fun d hd => hne d (List.mem_cons_of_mem _ hd))
        (by
          intro j hj
          obtain ⟨a1, a2, ha, hsj⟩ := hsrc (j + 1) (by simp only [List.length_cons]; omega)
          rw [chunk_offset_succ, List.getD_cons_succ] at hsj
          rw [chunk_offset_succ] at ha
          refine ⟨a1, a2, by omega, ?_⟩
          have e1 : k + 1 + j = k + (j + 1) := by omega
          have e2 : offset + c.length + chunk_offset rest j
              = offset + (c.length + chunk_offset rest j) := by omega
          rw [e1, e2]
          exact hsj)
        (by rw [List.length_append]; exact hfit)
        (by rw [List.length_append]; omega)
      rw [List.length_append] at hih
      rw [hfl]
      constructor
      · intro h
        have h2 := hih.1 (by omega)
        rw [h2.1, h2.2]
        refine ⟨by congr 1; omega, by simp⟩
      · intro h
        exact hih.2 (by omega)
    · have hfail := caps_copy_fail buflen c buffer hcne (by omega)
      rw [if_pos hfail]
      constructor
      · intro h; rw [hfl] at h; omega
      · intro _; rfl

/-- C10 (as stated, refuted). A well-formed source with one content byte in
all and `buflen = 1`: the content length does not exceed `buflen`, yet
`ddcci_caps` fails with `Buffer too small`; it succeeds with `buflen = 2`. -/
theorem caps_exact_fit_rejected :
    (ddcci_caps (chunk_source caps_source_1_0) 1 0).ret = .bufferTooSmall ∧
    (ddcci_caps (chunk_source caps_source_1_0) 1 0).ret.toInt = -1 ∧
    (ddcci_caps (chunk_source caps_source_1_0) 2 0).ret = .ok 1 := by
  refine ⟨by rfl, by rfl, by rfl⟩

/-- C10 (amended). Let `buflen ≥ 1` and let the source answer the running
offsets with well-formed chunks (opcode 0xe3, echoed offset) whose contents are
the non-empty lists `cs`, then with an empty chunk; `L` is the total content
length. Then `ddcci_caps` fails with `Buffer too small` exactly when
`L ≥ buflen`, and when `L < buflen` it succeeds, returns `L` and has stored the
contents in order followed by a NUL. -/
theorem ddcci_caps_buffer_limit (src : Nat → Nat → Option (List Nat)) (cs : List (List Nat))
    (buflen : Nat) (hbuf : 1 ≤ buflen) (hne : ∀ c ∈ cs, c ≠ [])
    (hsrc : ∀ k, k ≤ cs.length → ∃ b1 b2, b1 * 256 + b2 = chunk_offset cs k ∧
      src k (chunk_offset cs k) = some (0xe3 :: b1 :: b2 :: cs.getD k [])) :
    ((ddcci_caps (chunk_source src) buflen 0).ret = .bufferTooSmall
      ↔ buflen ≤ cs.flatten.length) ∧
    (cs.flatten.length < buflen →
      (ddcci_caps (chunk_source src) buflen 0).ret = .ok cs.flatten.length ∧
      (ddcci_caps (chunk_source src) buflen 0).ret.toInt = cs.flatten.length ∧
      (ddcci_caps (chunk_source src) buflen 0).buffer = cs.flatten ++ [0]) := by
  have h := caps_loop_chunks src buflen cs (buflen + 1) 0 0 [] [] hne
    (by
      intro j hj
      obtain ⟨b1, b2, h12, hs⟩ := hsrc j hj
      exact ⟨b1, b2, by omega, by simpa using hs⟩)
    (by simpa using hbuf) (by simp)
  simp only [List.length_nil, Nat.zero_add, List.nil_append] at h
  have hok : cs.flatten.length < buflen →
      (ddcci_caps (chunk_source src) buflen 0).ret = .ok cs.flatten.length ∧
      (ddcci_caps (chunk_source src) buflen 0).ret.toInt = cs.flatten.length ∧
      (ddcci_caps (chunk_source src) buflen 0).buffer = cs.flatten ++ [0] := by
    intro hl
    have h1 := h.1 hl
    refine ⟨h1.1, ?_, h1.2⟩
    show (caps_loop (chunk_source src) buflen (buflen + 1) 0 0 [] []).ret.toInt = _
    rw [h1.1]
    rfl
  refine ⟨⟨?_, h.2⟩, hok⟩
  intro hr
  by_contra hlt
  have h1 := (hok (by omega)).1
  rw [h1] at hr
  cases hr

theorem ddcci_caps_buffer_limit_witness :
    (ddcci_caps (chunk_source caps_source_1_0) 2 0).ret = .ok [[0x41]].flatten.length :=
  ((ddcci_caps_buffer_limit caps_source_1_0 [[0x41]] 2 (by decide) (by decide)
    (by
      intro k hk
      have hk2 : k = 0 ∨ k = 1 := by
        simp only [List.length_cons, List.length_nil] at hk
        omega
      rcases hk2 with rfl | rfl
      · exact ⟨0, 0, by rfl, by rfl⟩
      · exact ⟨0, 1, by rfl, by rfl⟩)).2 (by decide)).1

/-! ## Identity -/

theorem getD_of_take (l : List Nat) (n i : Nat) (h : i < n) :
    l.getD i 0 = (l.take n).getD i 0 := by
  rw [List.getD_eq_getElem?_getD, List.getD_eq_getElem?_getD, List.getElem?_take_of_lt h]

theorem ddcci_read_edid_ok (mon : monitor) (ioctlW ioctlR : Int) (buf : List Nat)
    (hw : 0 < ioctlW) (hr : 0 < ioctlR) (hh : buf.take 8 = edid_header) :
    ddcci_read_edid mon ioctlW ioctlR buf =
      (.ok, { mon with pnpid := (edid_chars buf).take 7 ++ [0]
                       digital := buf.getD 20 0 &&& 0x80 }) := by
  have h0 := getD_of_take buf 8 0 (by decide)
  have h1 := getD_of_take buf 8 1 (by decide)
  have h2 := getD_of_take buf 8 2 (by decide)
  have h3 := getD_of_take buf 8 3 (by decide)
  have h4 := getD_of_take buf 8 4 (by decide)
  have h5 := getD_of_take buf 8 5 (by decide)
  have h6 := getD_of_take buf 8 6 (by decide)
  have h7 := getD_of_take buf 8 7 (by decide)
  rw [hh] at h0 h1 h2 h3 h4 h5 h6 h7
  simp only [edid_header, List.getD_cons_zero, List.getD_cons_succ] at h0 h1 h2 h3 h4 h5 h6 h7
  have hio : i2c_write ioctlW > 0 ∧ i2c_read ioctlR > 0 := by
    unfold i2c_write i2c_read
    constructor <;> split <;> omega
  unfold ddcci_read_edid
  rw [if_pos hio, h0, h1, h2, h3, h4, h5, h6, h7, if_neg (by decide)]

/-- C11 (as stated, refuted). For the block that starts with the EDID header
and has `04 10 34 12` at offsets 8 to 11, `ddcci_read_edid` succeeds and the
identity is `A@P1234`, not `ABC1234`. -/
theorem edid_example_identity :
    (ddcci_read_edid sample_mon 1 1 (edid_block 0x04 0x10 0x34 0x12 0)).1 = .ok ∧
    cstr (ddcci_read_edid sample_mon 1 1 (edid_block 0x04 0x10 0x34 0x12 0)).2.pnpid
      = bytes_of "A@P1234" ∧
    cstr (ddcci_read_edid sample_mon 1 1 (edid_block 0x04 0x10 0x34 0x12 0)).2.pnpid
      ≠ bytes_of "ABC1234" := by
  refine ⟨by rfl, by rfl, by decide⟩

/-- C11 (amended). For every block delivered by successful bus transfers that
starts with `00 FF FF FF FF FF FF 00` and has `04 10 34 12` at offsets 8 to 11,
`ddcci_read_edid` succeeds and the identity is `A@P1234`; the identity
`ABC1234` is that of the bytes `04 43 34 12`. -/
theorem edid_example_amended (mon : monitor) (ioctlW ioctlR : Int) (buf : List Nat)
    (hw : 0 < ioctlW) (hr : 0 < ioctlR) :
    (buf.take 12 = edid_header ++ [0x04, 0x10, 0x34, 0x12] →
      (ddcci_read_edid mon ioctlW ioctlR buf).1 = .ok ∧
      cstr (ddcci_read_edid mon ioctlW ioctlR buf).2.pnpid = bytes_of "A@P1234") ∧
    (buf.take 12 = edid_header ++ [0x04, 0x43, 0x34, 0x12] →
      (ddcci_read_edid mon ioctlW ioctlR buf).1 = .ok ∧
      cstr (ddcci_read_edid mon ioctlW ioctlR buf).2.pnpid = bytes_of "ABC1234") := by
  have h8 := getD_of_take buf 12 8 (by decide)
  have h9 := getD_of_take buf 12 9 (by decide)
  have h10 := getD_of_take buf 12 10 (by decide)
  have h11 := getD_of_take buf 12 11 (by decide)
  have hhead : ∀ t, buf.take 12 = edid_header ++ t → buf.take 8 = edid_header := by
    intro t ht
    have : (buf.take 12).take 8 = buf.take 8 := by
      rw [List.take_take]; rfl
    rw [← this, ht]
    rfl
  constructor
  · intro h
    rw [ddcci_read_edid_ok mon ioctlW ioctlR buf hw hr (hhead _ h)]
    rw [h] at h8 h9 h10 h11
    simp only [edid_header, List.cons_append, List.nil_append, List.getD_cons_zero,
      List.getD_cons_succ] at h8 h9 h10 h11
    refine ⟨rfl, ?_⟩
    simp only [edid_chars, h8, h9, h10, h11]
    rfl
  · intro h
    rw [ddcci_read_edid_ok mon ioctlW ioctlR buf hw hr (hhead _ h)]
    rw [h] at h8 h9 h10 h11
    simp only [edid_header, List.cons_append, List.nil_append, List.getD_cons_zero,
      List.getD_cons_succ] at h8 h9 h10 h11
    refine ⟨rfl, ?_⟩
    simp only [edid_chars, h8, h9, h10, h11]
    rfl

theorem edid_example_amended_witness :
    (0 : Int) < 1 ∧
    cstr (ddcci_read_edid sample_mon 1 1 (edid_block 0x04 0x43 0x34 0x12 0)).2.pnpid
      = bytes_of "ABC1234" :=
  ⟨by decide, ((edid_example_amended sample_mon 1 1 (edid_block 0x04 0x43 0x34 0x12 0)
    (by decide) (by decide)).2 (by rfl)).2⟩

theorem land_31 (x : Nat) : x &&& 31 = x % 32 := Nat.and_pow_two_sub_one_eq_mod x 5

theorem land_3 (x : Nat) : x &&& 3 = x % 4 := Nat.and_pow_two_sub_one_eq_mod x 2

theorem land_255 (x : Nat) : x &&& 255 = x % 256 := Nat.and_pow_two_sub_one_eq_mod x 8

theorem land_128_ne_zero_iff (x : Nat) : x &&& 128 ≠ 0 ↔ x.testBit 7 = true := by
  have e : (128 : Nat) = 2 ^ 7 := by norm_num
  constructor
  · intro h
    by_contra hc
    apply h
    apply Nat.eq_of_testBit_eq
    intro j
    rw [e, Nat.testBit_and, Nat.testBit_two_pow, Nat.zero_testBit]
    by_cases hj : 7 = j
    · subst hj; simp [hc]
    · simp [hj]
  · intro h hz
    have hb : (x &&& 128).testBit 7 = true := by
      rw [e, Nat.testBit_and, Nat.testBit_two_pow, h]
      simp
    rw [hz] at hb
    simp at hb

/-- The three letters packed in 15 bits, as the EDID does it. -/
theorem pack_letters (a b c : Nat) (hb : b < 32) (hc : c < 32) :
    (a <<< 10) ||| (b <<< 5) ||| c = a * 1024 + b * 32 + c := by
  have h1 : (a <<< 10) ||| (b <<< 5) = a * 1024 + b * 32 := by
    have := Nat.mul_add_lt_is_or (i := 10) (b := b <<< 5)
      (by rw [Nat.shiftLeft_eq]; omega) a
    rw [Nat.shiftLeft_eq, Nat.mul_comm a, ← this, Nat.shiftLeft_eq]
  have h2 := Nat.mul_add_lt_is_or (i := 5) (b := c) (by omega) (a * 32 + b)
  rw [h1]
  have e : a * 1024 + b * 32 = 2 ^ 5 * (a * 32 + b) := by omega
  rw [e, ← h2]

theorem edid_block_bytes (b8 b9 b10 b11 b20 : Nat) (h8 : b8 < 256) (h9 : b9 < 256)
    (h10 : b10 < 256) (h11 : b11 < 256) (h20 : b20 < 256) :
    ∀ x ∈ edid_block b8 b9 b10 b11 b20, x < 256 := by
  intro x hx
  simp only [edid_block, edid_header, List.mem_append, List.mem_cons, List.mem_replicate,
    List.mem_nil_iff, or_false] at hx
  omega

theorem edid_chars_eq (buf : List Nat) (h9 : buf.getD 9 0 < 256) :
    edid_chars buf =
      [((buf.getD 8 0 >>> 2) &&& 31) + 64,
       ((buf.getD 8 0 &&& 3) <<< 3) + (buf.getD 9 0 >>> 5) + 64,
       (buf.getD 9 0 &&& 31) + 64,
       hexdigit (buf.getD 11 0 / 16), hexdigit (buf.getD 11 0 % 16),
       hexdigit (buf.getD 10 0 / 16), hexdigit (buf.getD 10 0 % 16)] := by
  have e1 : (((buf.getD 8 0 >>> 2) &&& 31) + 65 - 1) % 256
      = ((buf.getD 8 0 >>> 2) &&& 31) + 64 := by
    rw [land_31]; omega
  have e2 : ((((buf.getD 8 0 &&& 3) <<< 3) + (buf.getD 9 0 >>> 5)) + 65 - 1) % 256
      = ((buf.getD 8 0 &&& 3) <<< 3) + (buf.getD 9 0 >>> 5) + 64 := by
    rw [land_3, Nat.shiftLeft_eq, Nat.shiftRight_eq_div_pow]
    have : buf.getD 9 0 / 2 ^ 5 < 8 := by
      apply Nat.div_lt_of_lt_mul; omega
    omega
  have e3 : ((buf.getD 9 0 &&& 31) + 65 - 1) % 256 = (buf.getD 9 0 &&& 31) + 64 := by
    rw [land_31]; omega
  simp only [edid_chars, e1, e2, e3, hex2]
  rfl

theorem hexdigit_table (n : Nat) (h : n < 16) :
    hexdigit n = ("0123456789ABCDEF".toList.map Char.toNat).getD n 0 := by
  have key : ∀ m, m < 16 →
      hexdigit m = ("0123456789ABCDEF".toList.map Char.toNat).getD m 0 := by decide
  exact key n h

/-- C12. For every 128-byte block `b` of bytes delivered by successful bus
transfers whose first eight bytes are `00 FF FF FF FF FF FF 00`,
`ddcci_read_edid` succeeds; the identity field becomes the characters
`((b[8]>>2)&31)+64`, `((b[8]&3)<<3)+(b[9]>>5)+64`, `(b[9]&31)+64`, the two
upper-case hexadecimal digits of `b[11]`, those of `b[10]` (the characters of
`0123456789ABCDEF` at the high and at the low four bits), and a NUL; the
digital flag becomes `b[20] & 0x80`, which is non-zero exactly when bit 7 of
`b[20]` is set; nothing else changes. When letters `l1 l2 l3` in `A`..`Z` are
packed big-endian in bytes 8 and 9, the identity begins with them;
`4C 2D 34 12` gives `SAM1234`, `4C 2D CD AB` gives `SAMABCD` and `10 AC 9F E0`
gives `DELE09F`. -/
theorem ddcci_read_edid_identity (mon : monitor) (ioctlW ioctlR : Int) (b : List Nat)
    (hw : 0 < ioctlW) (hr : 0 < ioctlR) (hlen : b.length = 128) (hb : ∀ x ∈ b, x < 256)
    (hh : b.take 8 = [0x00, 0xff, 0xff, 0xff, 0xff, 0xff, 0xff, 0x00]) :
    (ddcci_read_edid mon ioctlW ioctlR b).1 = .ok ∧
    (ddcci_read_edid mon ioctlW ioctlR b).1.toInt = 0 ∧
    (ddcci_read_edid mon ioctlW ioctlR b).2.pnpid =
      [((b.getD 8 0 >>> 2) &&& 31) + 64,
       ((b.getD 8 0 &&& 3) <<< 3) + (b.getD 9 0 >>> 5) + 64,
       (b.getD 9 0 &&& 31) + 64,
       ("0123456789ABCDEF".toList.map Char.toNat).getD (b.getD 11 0 / 16) 0,
       ("0123456789ABCDEF".toList.map Char.toNat).getD (b.getD 11 0 % 16) 0,
       ("0123456789ABCDEF".toList.map Char.toNat).getD (b.getD 10 0 / 16) 0,
       ("0123456789ABCDEF".toList.map Char.toNat).getD (b.getD 10 0 % 16) 0, 0] ∧
    (ddcci_read_edid mon ioctlW ioctlR b).2.digital = b.getD 20 0 &&& 0x80 ∧
    ((ddcci_read_edid mon ioctlW ioctlR b).2.digital ≠ 0 ↔ (b.getD 20 0).testBit 7 = true) ∧
    (ddcci_read_edid mon ioctlW ioctlR b).2 =
      { mon with pnpid := (ddcci_read_edid mon ioctlW ioctlR b).2.pnpid
                 digital := (ddcci_read_edid mon ioctlW ioctlR b).2.digital } ∧
    (∀ l1 l2 l3 : Nat, 65 ≤ l1 → l1 ≤ 90 → 65 ≤ l2 → l2 ≤ 90 → 65 ≤ l3 → l3 ≤ 90 →
      b.getD 8 0 = (((l1 - 64) <<< 10) ||| ((l2 - 64) <<< 5) ||| (l3 - 64)) >>> 8 →
      b.getD 9 0 = (((l1 - 64) <<< 10) ||| ((l2 - 64) <<< 5) ||| (l3 - 64)) &&& 255 →
      (ddcci_read_edid mon ioctlW ioctlR b).2.pnpid.take 3 = [l1, l2, l3]) ∧
    cstr (ddcci_read_edid mon ioctlW ioctlR (edid_block 0x4c 0x2d 0x34 0x12 0)).2.pnpid
      = bytes_of "SAM1234" ∧
    (ddcci_read_edid mon ioctlW ioctlR (edid_block 0x4c 0x2d 0xcd 0xab 0)).2.pnpid
      = [0x53, 0x41, 0x4d, 0x41, 0x42, 0x43, 0x44, 0x00] ∧
    (ddcci_read_edid mon ioctlW ioctlR (edid_block 0x10 0xac 0x9f 0xe0 0)).2.pnpid
      = [0x44, 0x45, 0x4c, 0x45, 0x30, 0x39, 0x46, 0x00] := by
  have hget : ∀ i, i < 128 → b.getD i 0 < 256 := by
    intro i hi
    apply hb
    rw [List.getD_eq_getElem?_getD, List.getElem?_eq_getElem (by omega)]
    exact List.getElem_mem _
  have h9 : b.getD 9 0 < 256 := hget 9 (by decide)
  have h10 : b.getD 10 0 < 256 := hget 10 (by decide)
  have h11 : b.getD 11 0 < 256 := hget 11 (by decide)
  have hok := ddcci_read_edid_ok mon ioctlW ioctlR b hw hr hh
  have hch := edid_chars_eq b h9
  have hp : (ddcci_read_edid mon ioctlW ioctlR b).2.pnpid =
      [((b.getD 8 0 >>> 2) &&& 31) + 64,
       ((b.getD 8 0 &&& 3) <<< 3) + (b.getD 9 0 >>> 5) + 64,
       (b.getD 9 0 &&& 31) + 64,
       ("0123456789ABCDEF".toList.map Char.toNat).getD (b.getD 11 0 / 16) 0,
       ("0123456789ABCDEF".toList.map Char.toNat).getD (b.getD 11 0 % 16) 0,
       ("0123456789ABCDEF".toList.map Char.toNat).getD (b.getD 10 0 / 16) 0,
       ("0123456789ABCDEF".toList.map Char.toNat).getD (b.getD 10 0 % 16) 0, 0] := by
    rw [hok]
    show (edid_chars b).take 7 ++ [0] = _
    rw [hch, hexdigit_table _ (by omega : b.getD 11 0 / 16 < 16),
      hexdigit_table _ (by omega : b.getD 11 0 % 16 < 16),
      hexdigit_table _ (by omega : b.getD 10 0 / 16 < 16),
      hexdigit_table _ (by omega : b.getD 10 0 % 16 < 16)]
    rfl
  have hd : (ddcci_read_edid mon ioctlW ioctlR b).2.digital = b.getD 20 0 &&& 0x80 := by
    rw [hok]
  refine ⟨by rw [hok], by rw [hok]; rfl, hp, hd, ?_, by rw [hok], ?_, ?_, ?_, ?_⟩
  · rw [hd]
    exact land_128_ne_zero_iff _
  · intro l1 l2 l3 h1 h1' h2 h2' h3 h3' e8 e9
    rw [pack_letters (l1 - 64) (l2 - 64) (l3 - 64) (by omega) (by omega)] at e8 e9
    rw [Nat.shiftRight_eq_div_pow] at e8
    rw [land_255] at e9
    rw [hp]
    simp only [List.take_succ_cons, List.take_zero]
    rw [land_31, land_31, land_3, Nat.shiftLeft_eq, Nat.shiftRight_eq_div_pow,
      Nat.shiftRight_eq_div_pow, e8, e9]
    have g1 : (l1 - 64) * 1024 + (l2 - 64) * 32 + (l3 - 64) < 32768 := by omega
    congr 1
    · omega
    · congr 1
      · omega
      · congr 1
        omega
  · rw [ddcci_read_edid_ok mon ioctlW ioctlR _ hw hr (by rfl)]
    rfl
  · rw [ddcci_read_edid_ok mon ioctlW ioctlR _ hw hr (by rfl)]
    rfl
  · rw [ddcci_read_edid_ok mon ioctlW ioctlR _ hw hr (by rfl)]
    rfl

theorem ddcci_read_edid_identity_witness :
    (0 : Int) < 1 ∧ (edid_block 0x4c 0x2d 0xcd 0xab 0x80).length = 128 ∧
    (ddcci_read_edid sample_mon 1 1 (edid_block 0x4c 0x2d 0xcd 0xab 0x80)).2.pnpid
      = [0x53, 0x41, 0x4d, 0x41, 0x42, 0x43, 0x44, 0x00] ∧
    (ddcci_read_edid sample_mon 1 1 (edid_block 0x4c 0x2d 0xcd 0xab 0x80)).2.digital
      = 0x80 :=
  ⟨by decide, by rfl,
    (ddcci_read_edid_identity sample_mon 1 1 (edid_block 0x4c 0x2d 0xcd 0xab 0x80)
      (by decide) (by decide) (by rfl)
      (edid_block_bytes _ _ _ _ _ (by decide) (by decide) (by decide) (by decide) (by decide))
      (by rfl)).2.2.1,
    (ddcci_read_edid_identity sample_mon 1 1 (edid_block 0x4c 0x2d 0xcd 0xab 0x80)
      (by decide) (by decide) (by rfl)
      (edid_block_bytes _ _ _ _ _ (by decide) (by decide) (by decide) (by decide) (by decide))
      (by rfl)).2.2.2.1⟩

/-- C13. Whenever the offset write or the 128-byte read reports failure (a
result of 0 or less), or one of the first eight bytes of the block read
differs from the header `00 FF FF FF FF FF FF 00`, `ddcci_read_edid` returns -1
and leaves the connection, and so its identity string and digital flag,
unchanged; a block whose byte 1 is `0x00` is an instance. -/
theorem ddcci_read_edid_rejects (mon : monitor) (ioctlW ioctlR : Int) (b : List Nat)
    (h : ioctlW ≤ 0 ∨ ioctlR ≤ 0 ∨ ∃ i, i < 8 ∧ b.getD i 0 ≠ edid_header.getD i 0) :
    (ddcci_read_edid mon ioctlW ioctlR b).1.toInt = -1 ∧
    (ddcci_read_edid mon ioctlW ioctlR b).2 = mon ∧
    (ddcci_read_edid mon ioctlW ioctlR b).2.pnpid = mon.pnpid ∧
    (ddcci_read_edid mon ioctlW ioctlR b).2.digital = mon.digital ∧
    ((ioctlW ≤ 0 ∨ ioctlR ≤ 0) → (ddcci_read_edid mon ioctlW ioctlR b).1 = .readFailed) ∧
    (0 < ioctlW → 0 < ioctlR → (ddcci_read_edid mon ioctlW ioctlR b).1 = .corrupt) := by
  have key : (ddcci_read_edid mon ioctlW ioctlR b).1 ≠ .ok ∧
      (ddcci_read_edid mon ioctlW ioctlR b).2 = mon ∧
      ((ioctlW ≤ 0 ∨ ioctlR ≤ 0) → (ddcci_read_edid mon ioctlW ioctlR b).1 = .readFailed) ∧
      (0 < ioctlW → 0 < ioctlR → (ddcci_read_edid mon ioctlW ioctlR b).1 = .corrupt) := by
    unfold ddcci_read_edid
    by_cases hio : i2c_write ioctlW > 0 ∧ i2c_read ioctlR > 0
    · have hw : 0 < ioctlW := by
        have := hio.1
        unfold i2c_write at this
        split at this <;> omega
      have hr : 0 < ioctlR := by
        have := hio.2
        unfold i2c_read at this
        split at this <;> omega
      have hhdr : b.getD 0 0 ≠ 0 ∨ b.getD 1 0 ≠ 0xff ∨ b.getD 2 0 ≠ 0xff ∨ b.getD 3 0 ≠ 0xff ∨
          b.getD 4 0 ≠ 0xff ∨ b.getD 5 0 ≠ 0xff ∨ b.getD 6 0 ≠ 0xff ∨ b.getD 7 0 ≠ 0 := by
        rcases h with h | h | ⟨i, hi, hne⟩
        · omega
        · omega
        · have hcases : i = 0 ∨ i = 1 ∨ i = 2 ∨ i = 3 ∨ i = 4 ∨ i = 5 ∨ i = 6 ∨ i = 7 := by
            omega
          rcases hcases with rfl | rfl | rfl | rfl | rfl | rfl | rfl | rfl <;>
            simp only [edid_header, List.getD_cons_zero, List.getD_cons_succ] at hne <;>
            tauto
      rw [if_pos hio, if_pos hhdr]
      refine ⟨fun hc => EdidRet.noConfusion hc, rfl, ?_, fun _ _ => rfl⟩
      intro hf
      omega
    · rw [if_neg hio]
      refine ⟨fun hc => EdidRet.noConfusion hc, rfl, fun _ => rfl, ?_⟩
      intro hw hr
      exfalso
      apply hio
      unfold i2c_write i2c_read
      constructor <;> split <;> omega
  have hret : (ddcci_read_edid mon ioctlW ioctlR b).1.toInt = -1 := by
    cases hc : (ddcci_read_edid mon ioctlW ioctlR b).1 with
    | ok => exact absurd hc key.1
    | corrupt => rfl
    | readFailed => rfl
  exact ⟨hret, key.2.1, by rw [key.2.1], by rw [key.2.1], key.2.2.1, key.2.2.2⟩

theorem ddcci_read_edid_rejects_witness :
    (ddcci_read_edid sample_mon 1 1
      ([0x00, 0x00, 0xff, 0xff, 0xff, 0xff, 0xff, 0x00] ++ List.replicate 120 0)).1.toInt = -1 :=
  (ddcci_read_edid_rejects sample_mon 1 1
    ([0x00, 0x00, 0xff, 0xff, 0xff, 0xff, 0xff, 0x00] ++ List.replicate 120 0)
    (Or.inr (Or.inr ⟨1, by decide, by decide⟩))).1

/-! ## Opening and closing -/

theorem i2c_write_neg_iff (x : Int) : i2c_write x < 0 ↔ x < 0 := by
  unfold i2c_write
  split <;> omega

theorem edid_toInt_neg_iff (e : EdidRet) : e.toInt < 0 ↔ e ≠ .ok := by
  cases e <;> simp [EdidRet.toInt]

theorem pnpid_is_SAM_iff (p : List Nat) : pnpid_is_SAM p = true ↔ p.take 3 = bytes_of "SAM" := by
  have e : bytes_of "SAM" = [83, 65, 77] := by rfl
  rw [e]
  simp [pnpid_is_SAM]

/-- The handshake of `ddcci_open`, once the node is open and the EDID read. -/
theorem ddcci_open_handshake (create_db : List Nat → Option monitor_db) (env : OpenEnv)
    (hfd : ¬ env.fd < 0) (he : (open_edid env).1 = .ok) :
    (wants_enable create_db (open_edid env).2.pnpid →
      ddcci_open create_db env =
        { ret := if env.ioctl < 0 then -1 else 0
          mon := (ddcci_write (open_profiled create_db env) [0x03, 0xf5, 0x00, 0x01]
            env.clock env.ioctl).mon
          handshake := some (ddcci_write (open_profiled create_db env) [0x03, 0xf5, 0x00, 0x01]
            env.clock env.ioctl) }) ∧
    (¬ wants_enable create_db (open_edid env).2.pnpid →
      ddcci_open create_db env =
        { ret := if env.ioctl < 0 then -1 else 0
          mon := (ddcci_write (open_profiled create_db env) [0xf7] env.clock env.ioctl).mon
          handshake := some (ddcci_write (open_profiled create_db env) [0xf7]
            env.clock env.ioctl) }) := by
  have hE : ¬ (open_edid env).1.toInt < 0 := by
    rw [edid_toInt_neg_iff]; exact not_not.mpr he
  have hret : ∀ m b, ((ddcci_write m b env.clock env.ioctl).ret < 0) ↔ env.ioctl < 0 :=
    fun m b => i2c_write_neg_iff env.ioctl
  have hopen : ddcci_open create_db env
      = open_handshake (open_profiled create_db env) env.clock env.ioctl := by
    show (if env.fd < 0 then _ else if (open_edid env).1.toInt < 0 then _ else _) = _
    rw [if_neg hfd, if_neg hE]
    rfl
  rw [hopen]
  have hpay1 : ∀ m : monitor, ddcci_writectrl m DDCCI_CTRL DDCCI_CTRL_ENABLE env.clock env.ioctl
      = ddcci_write m [0x03, 0xf5, 0x00, 0x01] env.clock env.ioctl := fun m => rfl
  have hpay2 : ∀ m : monitor, ddcci_command m DDCCI_COMMAND_PRESENCE env.clock env.ioctl
      = ddcci_write m [0xf7] env.clock env.ioctl := fun m => rfl
  have hdb : (open_profiled create_db env).db = create_db (open_edid env).2.pnpid := rfl
  have hpn : (open_profiled create_db env).pnpid = (open_edid env).2.pnpid := rfl
  unfold open_handshake wants_enable
  rw [← pnpid_is_SAM_iff, ← hdb, ← hpn]
  cases hc : (open_profiled create_db env).db with
  | none =>
    dsimp only
    constructor
    · rintro (⟨db, h1, -⟩ | ⟨-, h2⟩)
      · cases h1
      · rw [if_pos h2, hpay1]
        simp only [hret]
        split_ifs <;> rfl
    · intro hn
      have h2 : ¬ pnpid_is_SAM (open_profiled create_db env).pnpid = true :=
        fun h => hn (Or.inr ⟨rfl, h⟩)
      rw [if_neg h2, hpay2]
      simp only [hret]
      split_ifs <;> rfl
  | some db =>
    dsimp only
    constructor
    · rintro (⟨db2, h1, h3⟩ | ⟨h1, -⟩)
      · injection h1 with h1
        subst h1
        rw [if_pos h3, hpay1]
        simp only [hret]
        split_ifs <;> rfl
      · cases h1
    · intro hn
      have h2 : ¬ db.init = init_type.samsung := fun h => hn (Or.inl ⟨db, rfl, h⟩)
      rw [if_neg h2, hpay2]
      simp only [hret]
      split_ifs <;> rfl

theorem ddcci_read_edid_ok_inv (mon : monitor) (ioctlW ioctlR : Int) (buf : List Nat)
    (h : (ddcci_read_edid mon ioctlW ioctlR buf).1 = .ok) :
    (ddcci_read_edid mon ioctlW ioctlR buf).2 =
      { mon with pnpid := (edid_chars buf).take 7 ++ [0]
                 digital := buf.getD 20 0 &&& 0x80 } := by
  unfold ddcci_read_edid at h ⊢
  split_ifs at h ⊢
  rfl

theorem ddcci_write_mon_fields (m : monitor) (b : List Nat) (clock : Option timeval)
    (ioctl : Int) :
    (ddcci_write m b clock ioctl).mon.pnpid = m.pnpid ∧
    (ddcci_write m b clock ioctl).mon.digital = m.digital ∧
    (ddcci_write m b clock ioctl).mon.db = m.db ∧
    (ddcci_write m b clock ioctl).mon.fd = m.fd := by
  cases clock <;> exact ⟨rfl, rfl, rfl, rfl⟩

theorem ddcci_open_fd_neg (create_db : List Nat → Option monitor_db) (env : OpenEnv)
    (hfd : env.fd < 0) :
    ddcci_open create_db env =
      { ret := -3, mon := { monitor_zero with fd := env.fd }, handshake := none } := by
  show (if env.fd < 0 then _ else _) = _
  rw [if_pos hfd]

theorem ddcci_open_edid_failed (create_db : List Nat → Option monitor_db) (env : OpenEnv)
    (hfd : ¬ env.fd < 0) (he : (open_edid env).1 ≠ .ok) :
    ddcci_open create_db env = { ret := -2, mon := (open_edid env).2, handshake := none } := by
  have hE : (open_edid env).1.toInt < 0 := (edid_toInt_neg_iff _).mpr he
  show (if env.fd < 0 then _ else if (open_edid env).1.toInt < 0 then _ else _) = _
  rw [if_neg hfd, if_pos hE]
  rfl

/-- C14. With the system calls and the profile lookup as oracles: `ddcci_open`
returns -3 exactly when the device node cannot be opened; otherwise -2 exactly
when the EDID read fails; otherwise -1 exactly when the handshake write fails
and 0 when it does not. The handshake is a `ddcci_write` of the payload
`03 F5 00 01` exactly when a profile was found whose init kind is samsung, or
none was found and the identity starts with `SAM`, and of the payload `F7` in
every other case; no handshake is made after -3 or -2. When -1 is returned the
identity string and the digital flag are those decoded from the EDID block. -/
theorem ddcci_open_status (create_db : List Nat → Option monitor_db) (env : OpenEnv) :
    ((ddcci_open create_db env).ret = -3 ↔ env.fd < 0) ∧
    (¬ env.fd < 0 → ((ddcci_open create_db env).ret = -2 ↔ (open_edid env).1 ≠ .ok)) ∧
    (¬ env.fd < 0 → (open_edid env).1 = .ok →
      ((ddcci_open create_db env).ret = -1 ↔ env.ioctl < 0) ∧
      ((ddcci_open create_db env).ret = 0 ↔ ¬ env.ioctl < 0)) ∧
    (¬ env.fd < 0 → (open_edid env).1 = .ok →
      (wants_enable create_db (open_edid env).2.pnpid →
        (ddcci_open create_db env).handshake = some
          (ddcci_write (open_profiled create_db env) [0x03, 0xf5, 0x00, 0x01]
            env.clock env.ioctl)) ∧
      (¬ wants_enable create_db (open_edid env).2.pnpid →
        (ddcci_open create_db env).handshake = some
          (ddcci_write (open_profiled create_db env) [0xf7] env.clock env.ioctl))) ∧
    (((ddcci_open create_db env).ret = -3 ∨ (ddcci_open create_db env).ret = -2) →
      (ddcci_open create_db env).handshake = none) ∧
    ((ddcci_open create_db env).ret = -1 →
      (ddcci_open create_db env).mon.pnpid = (edid_chars env.edid).take 7 ++ [0] ∧
      (ddcci_open create_db env).mon.digital = env.edid.getD 20 0 &&& 0x80) := by
  by_cases hfd : env.fd < 0
  · have h := ddcci_open_fd_neg create_db env hfd
    rw [h]
    refine ⟨⟨fun _ => hfd, fun _ => rfl⟩, fun hn => absurd hfd hn, fun hn => absurd hfd hn,
      fun hn => absurd hfd hn, fun _ => rfl, ?_⟩
    intro hc
    have hc2 : (-3 : Int) = -1 := hc
    omega
  · by_cases he : (open_edid env).1 = .ok
    · have hs := ddcci_open_handshake create_db env hfd he
      have hinv := ddcci_read_edid_ok_inv _ _ _ _ he
      have hpn : (open_profiled create_db env).pnpid = (edid_chars env.edid).take 7 ++ [0] := by
        show (open_edid env).2.pnpid = _
        unfold open_edid
        rw [hinv]
      have hdg : (open_profiled create_db env).digital = env.edid.getD 20 0 &&& 0x80 := by
        show (open_edid env).2.digital = _
        unfold open_edid
        rw [hinv]
      by_cases hwant : wants_enable create_db (open_edid env).2.pnpid
      · have h := hs.1 hwant
        have hf := ddcci_write_mon_fields (open_profiled create_db env) [0x03, 0xf5, 0x00, 0x01]
          env.clock env.ioctl
        rw [h]
        dsimp only
        refine ⟨⟨?_, fun hc => absurd hc hfd⟩, fun _ => ⟨?_, fun hc => absurd he hc⟩,
          fun _ _ => ⟨?_, ?_⟩, fun _ _ => ⟨fun _ => rfl, fun hc => absurd hwant hc⟩, ?_,
          fun _ => ⟨hf.1.trans hpn, hf.2.1.trans hdg⟩⟩
        · intro hc; split_ifs at hc; omega
        · intro hc; split_ifs at hc; omega
        · constructor
          · intro hc; split_ifs at hc with h1; exact h1
          · intro hc; rw [if_pos hc]
        · constructor
          · intro hc; split_ifs at hc with h1; exact h1
          · intro hc; rw [if_neg hc]
        · intro hc
          rcases hc with hc | hc <;> split_ifs at hc <;> omega
      · have h := hs.2 hwant
        have hf := ddcci_write_mon_fields (open_profiled create_db env) [0xf7]
          env.clock env.ioctl
        rw [h]
        dsimp only
        refine ⟨⟨?_, fun hc => absurd hc hfd⟩, fun _ => ⟨?_, fun hc => absurd he hc⟩,
          fun _ _ => ⟨?_, ?_⟩, fun _ _ => ⟨fun hc => absurd hc hwant, fun _ => rfl⟩, ?_,
          fun _ => ⟨hf.1.trans hpn, hf.2.1.trans hdg⟩⟩
        · intro hc; split_ifs at hc; omega
        · intro hc; split_ifs at hc; omega
        · constructor
          · intro hc; split_ifs at hc with h1; exact h1
          · intro hc; rw [if_pos hc]
        · constructor
          · intro hc; split_ifs at hc with h1; exact h1
          · intro hc; rw [if_neg hc]
        · intro hc
          rcases hc with hc | hc <;> split_ifs at hc <;> omega
    · have h := ddcci_open_edid_failed create_db env hfd he
      rw [h]
      refine ⟨⟨fun hc => absurd (show (-2 : Int) = -3 from hc) (by decide),
          fun hc => absurd hc hfd⟩,
        fun _ => ⟨fun _ => he, fun _ => rfl⟩, fun _ hc => absurd hc he,
        fun _ hc => absurd hc he, fun _ => rfl, ?_⟩
      intro hc
      have hc2 : (-2 : Int) = -1 := hc
      omega

theorem ddcci_open_status_witness :
    (ddcci_open (fun _ => none)
      { fd := 3, edidW := 1, edidR := 1, edid := edid_block 0x4c 0x2d 0x34 0x12 0x80,
        clock := none, ioctl := -1 }).mon.digital
    = (edid_block 0x4c 0x2d 0x34 0x12 0x80).getD 20 0 &&& 0x80 :=
  ((ddcci_open_status (fun _ => none)
      { fd := 3, edidW := 1, edidR := 1, edid := edid_block 0x4c 0x2d 0x34 0x12 0x80,
        clock := none, ioctl := -1 }).2.2.2.2.2 (by rfl)).2

/-- C15 (the code at the failing input). A connection on descriptor 3 with a
samsung profile, and a disable write that fails: `ddcci_close` returns -1
without calling `close` and without releasing the profile. The same happens
without a profile when the identity starts with `SAM`. When the disable write
succeeds the handle is closed. -/
theorem ddcci_close_leaks_on_disable_failure :
    (ddcci_close samsung_mon { clock := none, ioctl := -1, close := 0 }).ret = -1 ∧
    (ddcci_close samsung_mon { clock := none, ioctl := -1, close := 0 }).closed = false ∧
    (ddcci_close samsung_mon { clock := none, ioctl := -1, close := 0 }).freed = false ∧
    (ddcci_close { samsung_mon with db := none }
      { clock := none, ioctl := -1, close := 0 }).closed = false ∧
    (ddcci_close samsung_mon { clock := none, ioctl := 1, close := 0 }).closed = true := by
  refine ⟨by rfl, by rfl, by rfl, by rfl, by rfl⟩

/-- Whenever a disable write is made and fails, `ddcci_close` returns -1 with
the handle still open; on every other path a valid handle is closed. -/
theorem ddcci_close_closed_iff (mon : monitor) (env : CloseEnv) (hfd : mon.fd > -1) :
    ((ddcci_close mon env).closed = true ↔
      ¬ (env.ioctl < 0 ∧ ((∃ db, mon.db = some db ∧ db.init = init_type.samsung) ∨
        (mon.db = none ∧ pnpid_is_SAM mon.pnpid = true)))) := by
  have hret : ∀ m a b, ((ddcci_writectrl m a b env.clock env.ioctl).ret < 0) ↔ env.ioctl < 0 :=
    fun m a b => i2c_write_neg_iff env.ioctl
  have hcf : ∀ d f, (ddcci_close_fd mon env d f).closed = true := by
    intro d f
    unfold ddcci_close_fd
    rw [if_pos hfd]
    split_ifs <;> rfl
  unfold ddcci_close
  cases hdb : mon.db with
  | none =>
    dsimp only
    by_cases hs : pnpid_is_SAM mon.pnpid = true
    · rw [if_pos hs]
      by_cases hio : env.ioctl < 0
      · rw [if_pos ((hret _ _ _).mpr hio)]
        simp [hio, hs]
      · rw [if_neg (fun h => hio ((hret _ _ _).mp h)), hcf]
        simp [hio]
    · rw [if_neg hs, hcf]
      simp [hs]
  | some db =>
    dsimp only
    by_cases hs : db.init = init_type.samsung
    · rw [if_pos hs]
      by_cases hio : env.ioctl < 0
      · rw [if_pos ((hret _ _ _).mpr hio)]
        simp [hio, hs]
      · rw [if_neg (fun h => hio ((hret _ _ _).mp h)), hcf]
        simp [hio]
    · rw [if_neg hs, hcf]
      simp [hs]

/-! ## Enumeration -/

theorem ddcci_open_ok_form (create_db : List Nat → Option monitor_db) (env : OpenEnv)
    (hfd : ¬ env.fd < 0) (he : (open_edid env).1 = .ok) :
    ∃ payload, ddcci_open create_db env =
      { ret := if env.ioctl < 0 then -1 else 0
        mon := (ddcci_write (open_profiled create_db env) payload env.clock env.ioctl).mon
        handshake := some (ddcci_write (open_profiled create_db env) payload
          env.clock env.ioctl) } := by
  have hs := ddcci_open_handshake create_db env hfd he
  by_cases hwant : wants_enable create_db (open_edid env).2.pnpid
  · exact ⟨_, hs.1 hwant⟩
  · exact ⟨_, hs.2 hwant⟩

/-- The result of `ddcci_open` is one of -3, -2, -1 and 0, and with 0 or -1 the
connection holds the identity and flag decoded from the EDID block and the
profile looked up for that identity. -/
theorem ddcci_open_result (create_db : List Nat → Option monitor_db) (env : OpenEnv) :
    (¬ (ddcci_open create_db env).ret > -2 ∧
      ¬ ((ddcci_open create_db env).ret = 0 ∨ (ddcci_open create_db env).ret = -1)) ∨
    ((ddcci_open create_db env).ret > -2 ∧
      ((ddcci_open create_db env).ret = 0 ∨ (ddcci_open create_db env).ret = -1) ∧
      (ddcci_open create_db env).mon.pnpid = (edid_chars env.edid).take 7 ++ [0] ∧
      (ddcci_open create_db env).mon.digital = env.edid.getD 20 0 &&& 0x80 ∧
      (ddcci_open create_db env).mon.db = create_db ((edid_chars env.edid).take 7 ++ [0])) := by
  by_cases hfd : env.fd < 0
  · left
    rw [ddcci_open_fd_neg create_db env hfd]
    dsimp only
    omega
  · by_cases he : (open_edid env).1 = .ok
    · right
      obtain ⟨payload, h⟩ := ddcci_open_ok_form create_db env hfd he
      have hinv := ddcci_read_edid_ok_inv _ _ _ _ he
      have hpn : (open_profiled create_db env).pnpid = (edid_chars env.edid).take 7 ++ [0] := by
        show (open_edid env).2.pnpid = _
        unfold open_edid
        rw [hinv]
      have hdg : (open_profiled create_db env).digital = env.edid.getD 20 0 &&& 0x80 := by
        show (open_edid env).2.digital = _
        unfold open_edid
        rw [hinv]
      have hdb : (open_profiled create_db env).db
          = create_db ((edid_chars env.edid).take 7 ++ [0]) := by
        show create_db (open_edid env).2.pnpid = _
        unfold open_edid
        rw [hinv]
      have hf := ddcci_write_mon_fields (open_profiled create_db env) payload
        env.clock env.ioctl
      rw [h]
      dsimp only
      refine ⟨?_, ?_, hf.1.trans hpn, hf.2.1.trans hdg, hf.2.2.1.trans hdb⟩
      · split_ifs <;> omega
      · split_ifs
        · right; rfl
        · left; rfl
    · left
      rw [ddcci_open_edid_failed create_db env hfd he]
      dsimp only
      omega

theorem cstr_length_le (a : List Nat) : (cstr (a ++ [0])).length ≤ a.length := by
  induction a with
  | nil => simp [cstr]
  | cons x xs ih =>
    unfold cstr at ih ⊢
    rw [List.cons_append, List.takeWhile_cons]
    split
    · simp only [List.length_cons]
      omega
    · simp

theorem unknown_monitor_name_eq (pnpid : List Nat) (h : (cstr pnpid).length ≤ 13) :
    unknown_monitor_name pnpid = "Unknown monitor (" ++ string_of (cstr pnpid) ++ ")" := by
  unfold unknown_monitor_name
  apply String.ext
  show List.take 31 ("Unknown monitor (" ++ string_of (cstr pnpid) ++ ")").data = _
  apply List.take_of_length_le
  simp only [String.data_append, List.length_append, string_of, List.length_map]
  have e1 : "Unknown monitor (".data.length = 17 := by rfl
  have e2 : ")".data.length = 1 := by rfl
  rw [e1, e2]
  omega

theorem probe_loop_eq (create_db : List Nat → Option monitor_db) (dir : List DirEntry) :
    ∀ acc : ProbeOut, probe_loop create_db dir acc =
      { list := acc.list ++ dir.filterMap (probe_entry create_db)
        probed := acc.probed ++
          (dir.filter (fun d => is_i2c_name d.d_name)).map (fun d => "/dev/" ++ d.d_name) } := by
  induction dir with
  | nil =>
    intro acc
    simp [probe_loop]
  | cons d rest ih =>
    intro acc
    unfold probe_loop
    by_cases hn : is_i2c_name d.d_name = true
    · rw [if_pos hn]
      dsimp only
      rw [ih]
      have hfilt : (List.filter (fun d => is_i2c_name d.d_name) (d :: rest))
          = d :: List.filter (fun d => is_i2c_name d.d_name) rest := by
        rw [List.filter_cons, if_pos hn]
      rw [hfilt, List.map_cons, List.filterMap_cons]
      rcases ddcci_open_result create_db d.openEnv with ⟨h1, h2⟩ | ⟨h1, h2, hp, hd, hdb⟩
      · have hpe : probe_entry create_db d = none := by
          unfold probe_entry
          rw [if_neg (fun hc => h2 hc.2)]
        rw [if_neg h1, hpe]
        simp
      · have hlen : (cstr ((edid_chars d.openEnv.edid).take 7 ++ [0])).length ≤ 13 := by
          have := cstr_length_le ((edid_chars d.openEnv.edid).take 7)
          have h7 : ((edid_chars d.openEnv.edid).take 7).length ≤ 7 := by
            rw [List.length_take]; omega
          omega
        have hpe : probe_entry create_db d = some
            { filename := "/dev/" ++ d.d_name
              supported := decide ((ddcci_open create_db d.openEnv).ret = 0)
              name := match (ddcci_open create_db d.openEnv).mon.db with
                | some db => db.name
                | none => unknown_monitor_name (ddcci_open create_db d.openEnv).mon.pnpid
              digital := (ddcci_open create_db d.openEnv).mon.digital } := by
          unfold probe_entry
          rw [if_pos ⟨hn, h2⟩, hdb, hp, hd, unknown_monitor_name_eq _ hlen]
        rw [if_pos h1, hpe]
        simp
    · rw [if_neg hn, ih]
      have hfilt : (List.filter (fun d => is_i2c_name d.d_name) (d :: rest))
          = List.filter (fun d => is_i2c_name d.d_name) rest := by
        rw [List.filter_cons, if_neg hn]
      have hpe : probe_entry create_db d = none := by
        unfold probe_entry
        rw [if_neg (fun hc => hn hc.1)]
      rw [hfilt, List.filterMap_cons, hpe]

theorem is_i2c_name_iff (s : String) :
    is_i2c_name s = true ↔ "i2c-".toList <+: s.toList := by
  unfold is_i2c_name
  rw [beq_iff_eq, List.prefix_iff_eq_take]
  have e : "i2c-".toList.length = 4 := by rfl
  rw [e]
  exact eq_comm

theorem probe_entry_eq (create_db : List Nat → Option monitor_db) (d : DirEntry) :
    probe_entry create_db d =
      if "i2c-".toList <+: d.d_name.toList ∧
          ((ddcci_open create_db d.openEnv).ret = 0 ∨
            (ddcci_open create_db d.openEnv).ret = -1) then
        some
          { filename := "/dev/" ++ d.d_name
            supported := decide ((ddcci_open create_db d.openEnv).ret = 0)
            name :=
              match create_db ((edid_chars d.openEnv.edid).take 7 ++ [0]) with
              | some db => db.name
              | none =>
                "Unknown monitor (" ++
                  String.mk ((((edid_chars d.openEnv.edid).take 7 ++ [0]).takeWhile
                    (fun b => b ≠ 0)).map Char.ofNat) ++ ")"
            digital := d.openEnv.edid.getD 20 0 &&& 0x80 }
      else none := by
  unfold probe_entry
  by_cases h : is_i2c_name d.d_name = true ∧
      ((ddcci_open create_db d.openEnv).ret = 0 ∨ (ddcci_open create_db d.openEnv).ret = -1)
  · rw [if_pos h, if_pos ⟨(is_i2c_name_iff _).mp h.1, h.2⟩]
    rfl
  · rw [if_neg h, if_neg (fun hc => h ⟨(is_i2c_name_iff _).mpr hc.1, hc.2⟩)]

/-- C16. For every directory listing and every outcome of the system calls
made for its entries, `ddcci_probe` opens `/dev/` + name for every entry whose
name starts with `i2c-`, in directory order, whatever the earlier results were,
and returns, in that order, exactly one entry for each of them whose open
result is 0 or -1: with that file path, the supported flag set exactly when the
result was 0, the digital flag `b[20] & 0x80` of the EDID block, and the display
name of the profile or else `Unknown monitor (<identity>)`, the identity being
the characters of the identity field before its NUL. On the sample listing
(`i2c-0` answers, `tty0`, `i2c-1` without EDID, `i2c-2` not openable, `i2c-3`
with a profile and a failing handshake, `i2c`) two entries are returned and the
four `i2c-` nodes are probed. -/
theorem ddcci_probe_result (create_db : List Nat → Option monitor_db) (dir : List DirEntry) :
    (ddcci_probe create_db dir).list = dir.filterMap (fun d =>
      if "i2c-".toList <+: d.d_name.toList ∧
          ((ddcci_open create_db d.openEnv).ret = 0 ∨
            (ddcci_open create_db d.openEnv).ret = -1) then
        some
          { filename := "/dev/" ++ d.d_name
            supported := decide ((ddcci_open create_db d.openEnv).ret = 0)
            name :=
              match create_db ((edid_chars d.openEnv.edid).take 7 ++ [0]) with
              | some db => db.name
              | none =>
                "Unknown monitor (" ++
                  String.mk ((((edid_chars d.openEnv.edid).take 7 ++ [0]).takeWhile
                    (fun b => b ≠ 0)).map Char.ofNat) ++ ")"
            digital := d.openEnv.edid.getD 20 0 &&& 0x80 }
      else none) ∧
    (ddcci_probe create_db dir).probed =
      (dir.filter (fun d => decide ("i2c-".toList <+: d.d_name.toList))).map
        (fun d => "/dev/" ++ d.d_name) ∧
    (ddcci_probe sample_db sample_dir).list =
      [ { filename := "/dev/i2c-0", supported := true,
          name := "Unknown monitor (SAMABCD)", digital := 0x80 },
        { filename := "/dev/i2c-3", supported := false,
          name := "Dell 2001FP", digital := 0 } ] ∧
    (ddcci_probe sample_db sample_dir).probed =
      ["/dev/i2c-0", "/dev/i2c-1", "/dev/i2c-2", "/dev/i2c-3"] := by
  have h := probe_loop_eq create_db dir { list := [], probed := [] }
  refine ⟨?_, ?_, by rfl, by rfl⟩
  · show (probe_loop create_db dir { list := [], probed := [] }).list = _
    rw [h]
    simp only [List.nil_append]
    apply List.filterMap_congr
    intro d _
    exact probe_entry_eq create_db d
  · show (probe_loop create_db dir { list := [], probed := [] }).probed = _
    rw [h]
    simp only [List.nil_append]
    congr 1
    apply List.filter_congr
    intro d _
    by_cases hp : is_i2c_name d.d_name = true
    · rw [hp]
      exact (decide_eq_true ((is_i2c_name_iff _).mp hp)).symm
    · have hf : is_i2c_name d.d_name = false := by
        cases hc : is_i2c_name d.d_name
        · rfl
        · exact absurd hc hp
      rw [hf]
      exact (decide_eq_false (fun hc => hp ((is_i2c_name_iff _).mpr hc))).symm

/-! ## Corruption and bounds of the decoder -/

theorem xor_loop_some (_buf : List Nat) (n i x y : Nat) (h : xor_loop _buf n i x = some y) :
    n = 0 ∨ i + n ≤ _buf.length := by
  induction n generalizing i x with
  | zero => exact Or.inl rfl
  | succ n ih =>
    right
    rw [xor_loop] at h
    cases hg : _buf[i]? with
    | none => rw [hg] at h; cases h
    | some b =>
      rw [hg] at h
      have hi : i < _buf.length := by
        by_contra hc
        rw [List.getElem?_eq_none (by omega)] at hg
        cases hg
      rcases ih (i + 1) (x ^^^ b) h with h0 | h1
      · omega
      · omega

/-- The validation of `ddcci_read` as one conditional, on a buffer that holds
the `L + 3` bytes of the frame it announces. -/
theorem ddcci_read_validate_frame (addr len : Nat) (raw : List Nat)
    (hraw : (raw.getD 1 0 &&& 0x7f) + 3 ≤ raw.length) :
    ddcci_read_validate addr len raw =
      if raw.getD 0 0 ≠ addr * 2 % 2 ^ 32 then .error .address
      else if raw.getD 1 0 &&& 0x80 = 0 then .error .magic
      else if raw.getD 1 0 &&& 0x7f > len then .error .length
      else if xorAll 0x50 (raw.take ((raw.getD 1 0 &&& 0x7f) + 3)) ≠ 0 then .error .checksum
      else .ok ((raw.drop 2).take (raw.getD 1 0 &&& 0x7f)) := by
  match raw, hraw with
  | b0 :: b1 :: rest, hraw =>
    have h127 : b1 &&& 0x7f ≤ 127 := Nat.and_le_right
    simp only [ddcci_read_validate, List.getD_cons_zero, List.getD_cons_succ, MAGIC_2,
      MAX_BYTES, MAGIC_XOR, List.getElem?_cons_zero, List.getElem?_cons_succ]
    by_cases h0 : b0 ≠ addr * 2 % 2 ^ 32
    · rw [if_pos h0, if_pos h0]
    · rw [if_neg h0, if_neg h0]
      by_cases h1 : b1 &&& 128 = 0
      · rw [if_pos h1, if_pos h1]
      · rw [if_neg h1, if_neg h1]
        by_cases h2 : b1 &&& 0x7f > len
        · rw [if_pos (Or.inl h2), if_pos h2]
        · have hx := xor_loop_eq (b0 :: b1 :: rest) ((b1 &&& 0x7f) + 3) 0 0x50
            (by simp only [List.getD_cons_zero, List.getD_cons_succ] at hraw; omega)
          simp only [List.drop_zero] at hx
          have hor : ¬ (b1 &&& 0x7f > len ∨ b1 &&& 0x7f > 127) := by omega
          rw [if_neg hor, if_neg h2, hx]

/-- What an accepted buffer looks like. -/
theorem ddcci_read_validate_ok_inv (addr len : Nat) (raw p : List Nat)
    (h : ddcci_read_validate addr len raw = .ok p) :
    (raw.getD 1 0 &&& 0x7f) + 3 ≤ raw.length ∧
    raw.getD 0 0 = addr * 2 % 2 ^ 32 ∧ raw.getD 1 0 &&& 0x80 ≠ 0 ∧
    raw.getD 1 0 &&& 0x7f ≤ len ∧
    xorAll 0x50 (raw.take ((raw.getD 1 0 &&& 0x7f) + 3)) = 0 ∧
    p = (raw.drop 2).take (raw.getD 1 0 &&& 0x7f) ∧
    p.length = raw.getD 1 0 &&& 0x7f := by
  have hlen : (raw.getD 1 0 &&& 0x7f) + 3 ≤ raw.length := by
    unfold ddcci_read_validate at h
    split at h
    · rename_i b0 b1 h0 h1
      have e1 : raw.getD 1 0 = b1 := by
        rw [List.getD_eq_getElem?_getD, h1]; rfl
      dsimp only at h
      split_ifs at h
      split at h
      · cases h
      · rename_i x hx
        rcases xor_loop_some _ _ _ _ _ hx with h3 | h3
        · omega
        · rw [e1]; omega
    · cases h
  have hv := ddcci_read_validate_frame addr len raw hlen
  rw [h] at hv
  split_ifs at hv with h0 h1 h2 h3
  have hp : p = (raw.drop 2).take (raw.getD 1 0 &&& 0x7f) := by
    injection hv
  refine ⟨hlen, not_not.mp h0, h1, by omega, not_not.mp h3, hp, ?_⟩
  rw [hp, List.length_take, List.length_drop]
  omega

theorem ddcci_read_res_ok (mon : monitor) (len : Nat) (clock : Option timeval) (ioctl : Int)
    (raw p : List Nat) (h : (ddcci_read mon len clock ioctl raw).res = .ok p) :
    ¬ i2c_read ioctl ≤ 0 ∧ ddcci_read_validate mon.addr len raw = .ok p := by
  simp only [ddcci_read] at h
  split_ifs at h with hio
  exact ⟨hio, h⟩

/-- C18. For every connection, maximum length and buffer that `ddcci_read`
accepts with payload `p` (length `L`), flipping one bit `k` of a payload
byte or of the checksum byte (index `2 ≤ i ≤ L + 2`) leaves the address echo
and the length byte as they were, makes the XOR of 0x50 with the same `L + 3`
bytes equal to the flipped bit `2 ^ k`, which is not zero, and so `ddcci_read`
rejects the buffer at the checksum test and returns -1. -/
theorem payload_corruption_detected (mon : monitor) (len : Nat) (clock : Option timeval)
    (ioctl : Int) (raw p : List Nat) (i k : Nat)
    (hacc : (ddcci_read mon len clock ioctl raw).res = .ok p)
    (hi2 : 2 ≤ i) (hi : i ≤ p.length + 2) :
    (flipBit raw i k).getD 0 0 = raw.getD 0 0 ∧
    (flipBit raw i k).getD 1 0 = raw.getD 1 0 ∧
    xorAll 0x50 ((flipBit raw i k).take (p.length + 3)) = 2 ^ k ∧
    2 ^ k ≠ 0 ∧
    (ddcci_read mon len clock ioctl (flipBit raw i k)).res = .error .checksum ∧
    (ddcci_read mon len clock ioctl (flipBit raw i k)).ret = -1 := by
  obtain ⟨hio, hv⟩ := ddcci_read_res_ok mon len clock ioctl raw p hacc
  obtain ⟨hlen, h0, h1, h2, h3, _, hpl⟩ := ddcci_read_validate_ok_inv mon.addr len raw p hv
  have e0 : (flipBit raw i k).getD 0 0 = raw.getD 0 0 := flipBit_getD_ne raw i 0 k (by omega)
  have e1 : (flipBit raw i k).getD 1 0 = raw.getD 1 0 := flipBit_getD_ne raw i 1 k (by omega)
  have hpow : 2 ^ k ≠ 0 := Nat.pos_iff_ne_zero.mp (Nat.two_pow_pos k)
  have hx : xorAll 0x50 ((flipBit raw i k).take ((raw.getD 1 0 &&& 0x7f) + 3)) = 2 ^ k := by
    have ht : (flipBit raw i k).take ((raw.getD 1 0 &&& 0x7f) + 3) =
        (raw.take ((raw.getD 1 0 &&& 0x7f) + 3)).set i (raw.getD i 0 ^^^ 2 ^ k) := by
      simp only [flipBit, List.set_take]
    have hg : (raw.take ((raw.getD 1 0 &&& 0x7f) + 3)).getD i 0 = raw.getD i 0 := by
      rw [List.getD_eq_getElem?_getD, List.getD_eq_getElem?_getD raw i,
        List.getElem?_take_of_lt (by omega)]
    rw [ht, xorAll_set _ _ _ _ (by rw [List.length_take]; omega), hg, h3,
      Nat.zero_xor, ← Nat.xor_assoc, Nat.xor_self, Nat.zero_xor]
  have hres : (ddcci_read mon len clock ioctl (flipBit raw i k)).res = .error .checksum := by
    have hf := ddcci_read_validate_frame mon.addr len (flipBit raw i k)
      (by rw [flipBit_length, e1]; exact hlen)
    simp only [ddcci_read]
    rw [if_neg hio, hf, e0, e1, if_neg (not_not.mpr h0), if_neg h1, if_neg (by omega), if_pos]
    rw [hx]
    exact hpow
  refine ⟨e0, e1, ?_, hpow, hres, ?_⟩
  · rw [hpl]; exact hx
  · simp only [ReadOut.ret, hres]

theorem payload_corruption_detected_witness :
    (ddcci_read sample_mon 1 none 1 (flipBit [0x6e, 0x81, 0xbe, 0x01] 3 0)).res
      = .error .checksum :=
  (payload_corruption_detected sample_mon 1 none 1 [0x6e, 0x81, 0xbe, 0x01] [0xbe] 3 0
    (by rfl) (by decide) (by decide)).2.2.2.2.1

/-- C20. For every maximum length `len ≤ 124` (the callers use 8 and 35) and
every receive buffer holding the `len + 3` bytes read, the bus read asks for
`len + 3 ≤ 127` bytes, which fit `_buf`; the validation never leaves through
the out-of-range exit; and an accepted payload has `L = raw[1] & 0x7f ≤ len`
bytes, so that the indices read, up to `L + 2`, are below `len + 3`. -/
theorem ddcci_read_in_bounds (mon : monitor) (len : Nat) (clock : Option timeval)
    (ioctl : Int) (raw : List Nat) (hlen : len ≤ 124) (hraw : len + 3 ≤ raw.length) :
    (ddcci_read mon len clock ioctl raw).i2cLen = len + 3 ∧
    (ddcci_read mon len clock ioctl raw).i2cLen ≤ MAX_BYTES ∧
    (ddcci_read mon len clock ioctl raw).res ≠ .error .range ∧
    (raw.getD 1 0 &&& 0x7f ≤ len → (raw.getD 1 0 &&& 0x7f) + 2 < len + 3 ∧
      xor_loop raw ((raw.getD 1 0 &&& 0x7f) + 3) 0 MAGIC_XOR ≠ none) ∧
    (∀ p, (ddcci_read mon len clock ioctl raw).res = .ok p →
      p.length = (raw.getD 1 0 &&& 0x7f) ∧ p.length ≤ len ∧ 2 + p.length ≤ len + 3) ∧
    (8 ≤ 124 ∧ 35 ≤ 124) := by
  have hv := ddcci_read_validate_eq mon.addr len raw hraw
  refine ⟨?_, ?_, ?_, ?_, ?_, by decide⟩
  · show (len + 3) % 256 = len + 3
    omega
  · show (len + 3) % 256 ≤ MAX_BYTES
    simp only [MAX_BYTES]
    omega
  · simp only [ddcci_read]
    split_ifs
    · intro hc; cases hc
    · rw [hv]
      split_ifs <;> intro hc <;> cases hc
  · intro hL
    refine ⟨by omega, ?_⟩
    rw [xor_loop_eq raw _ 0 MAGIC_XOR (by omega)]
    intro hc
    cases hc
  · intro p hp
    obtain ⟨_, hvp⟩ := ddcci_read_res_ok mon len clock ioctl raw p hp
    obtain ⟨_, _, _, h2, _, _, hpl⟩ := ddcci_read_validate_ok_inv mon.addr len raw p hvp
    omega

theorem ddcci_read_in_bounds_witness :
    (8 : Nat) ≤ 124 ∧ 8 + 3 ≤ [0x6e, 0x81, 0xbe, 0x01, 0, 0, 0, 0, 0, 0, 0].length ∧
    (ddcci_read sample_mon 8 none 1 [0x6e, 0x81, 0xbe, 0x01, 0, 0, 0, 0, 0, 0, 0]).res
      ≠ .error .range :=
  ⟨by decide, by decide,
    (ddcci_read_in_bounds sample_mon 8 none 1 [0x6e, 0x81, 0xbe, 0x01, 0, 0, 0, 0, 0, 0, 0]
      (by decide) (by decide)).2.2.1⟩

/-! ## Termination and assembly of the capability loop -/

theorem caps_copy_spec (buflen : Nat) (c buffer : List Nat) (hb : buffer.length < buflen) :
    ((caps_copy buflen c buffer).2 = true ∧ caps_copy buflen c buffer = (buffer ++ c, true) ∧
      buffer.length + c.length < buflen) ∨
    ((caps_copy buflen c buffer).2 = false ∧ (caps_copy buflen c buffer).1.length = buflen ∧
      c ≠ []) := by
  induction c generalizing buffer with
  | nil =>
    left
    simp only [caps_copy, List.append_nil, List.length_nil, Nat.add_zero]
    exact ⟨trivial, trivial, hb⟩
  | cons b bs ih =>
    rw [caps_copy]
    by_cases h1 : (buffer ++ [b]).length ≥ buflen
    · right
      rw [if_pos h1]
      simp only [List.length_append, List.length_cons, List.length_nil] at h1 ⊢
      exact ⟨trivial, by omega, by simp⟩
    · rw [if_neg h1]
      have hb2 : (buffer ++ [b]).length < buflen := by omega
      rcases ih (buffer ++ [b]) hb2 with ⟨h2, h3, h4⟩ | ⟨h2, h3, _⟩
      · left
        refine ⟨h2, ?_, ?_⟩
        · rw [h3]; simp
        · simp only [List.length_append, List.length_cons, List.length_nil] at h4 ⊢
          omega
      · right
        exact ⟨h2, h3, by simp⟩

/-- The loop of `ddcci_caps` with enough fuel for the room left in the buffer:
it does not run out of fuel, it makes at most as many further requests as
there are bytes left, and it stores no byte at or beyond index `buflen`. -/
theorem caps_loop_bounds {σ : Type} (raw_caps : σ → Nat → Option (List Nat) × σ) (buflen : Nat) :
    ∀ (fuel : Nat) (st : σ) (offset : Nat) (buffer reqs : List Nat),
    buffer.length < buflen → buflen ≤ fuel + buffer.length →
    (caps_loop raw_caps buflen fuel st offset buffer reqs).ret ≠ .fuel ∧
    (caps_loop raw_caps buflen fuel st offset buffer reqs).reqs.length
      ≤ reqs.length + (buflen - buffer.length) ∧
    reqs.length < (caps_loop raw_caps buflen fuel st offset buffer reqs).reqs.length ∧
    (caps_loop raw_caps buflen fuel st offset buffer reqs).buffer.length ≤ buflen := by
  intro fuel
  induction fuel with
  | zero =>
    intro st offset buffer reqs hb hf
    omega
  | succ fuel ih =>
    intro st offset buffer reqs hb hf
    unfold caps_loop
    cases hr : raw_caps st offset with
    | mk res st1 =>
      cases res with
      | none =>
        dsimp only
        refine ⟨fun hc => CapsRet.noConfusion hc, ?_, ?_, by omega⟩
        · rw [List.length_append, List.length_singleton]; omega
        · rw [List.length_append, List.length_singleton]; omega
      | some buf =>
        dsimp only
        split_ifs with h1 h2 h3
        · refine ⟨fun hc => CapsRet.noConfusion hc, ?_, ?_, by dsimp only; omega⟩
          · dsimp only; rw [List.length_append, List.length_singleton]; omega
          · dsimp only; rw [List.length_append, List.length_singleton]; omega
        · rcases caps_copy_spec buflen (buf.drop 3) buffer hb with ⟨h4, _, _⟩ | ⟨_, h5, _⟩
          · rw [h4] at h2; cases h2
          · refine ⟨fun hc => CapsRet.noConfusion hc, ?_, ?_, by dsimp only; omega⟩
            · dsimp only; rw [List.length_append, List.length_singleton]; omega
            · dsimp only; rw [List.length_append, List.length_singleton]; omega
        · rcases caps_copy_spec buflen (buf.drop 3) buffer hb with ⟨_, h5, h6⟩ | ⟨h4, _, _⟩
          · rw [h5]
            dsimp only
            have hd : (buf.drop 3).length = buf.length - 3 := List.length_drop 3 buf
            have hl : (buffer ++ buf.drop 3).length = buffer.length + (buf.length - 3) := by
              rw [List.length_append, hd]
            have := ih st1 (offset + (buf.length - 3)) (buffer ++ buf.drop 3) (reqs ++ [offset])
              (by omega) (by omega)
            rw [List.length_append, List.length_singleton, hl] at this
            refine ⟨this.1, by omega, by omega, this.2.2.2⟩
          · exact absurd h4 h2
        · rcases caps_copy_spec buflen (buf.drop 3) buffer hb with ⟨_, h5, h6⟩ | ⟨h4, _, _⟩
          · rw [h5]
            dsimp only
            refine ⟨fun hc => CapsRet.noConfusion hc, ?_, ?_, ?_⟩
            · rw [List.length_append, List.length_singleton]; omega
            · rw [List.length_append, List.length_singleton]; omega
            · simp only [List.length_append, List.length_singleton]; omega
          · exact absurd h4 h2

/-- More fuel than the room left in the buffer does not change the result. -/
theorem caps_loop_fuel {σ : Type} (raw_caps : σ → Nat → Option (List Nat) × σ) (buflen : Nat) :
    ∀ (f1 f2 : Nat) (st : σ) (offset : Nat) (buffer reqs : List Nat),
    buffer.length < buflen → buflen ≤ f1 + buffer.length → buflen ≤ f2 + buffer.length →
    caps_loop raw_caps buflen f1 st offset buffer reqs
      = caps_loop raw_caps buflen f2 st offset buffer reqs := by
  intro f1
  induction f1 with
  | zero => intro f2 st offset buffer reqs hb h1 _; omega
  | succ f1 ih =>
    intro f2 st offset buffer reqs hb h1 h2
    obtain ⟨g, rfl⟩ : ∃ g, f2 = g + 1 := ⟨f2 - 1, by omega⟩
    rw [caps_loop, caps_loop]
    cases hr : raw_caps st offset with
    | mk res st1 =>
      cases res with
      | none => rfl
      | some buf =>
        dsimp only
        split_ifs with h3 h4 h5
        · rfl
        · rfl
        · rcases caps_copy_spec buflen (buf.drop 3) buffer hb with ⟨_, h6, h7⟩ | ⟨h8, _, _⟩
          · rw [h6]
            dsimp only
            have hd : (buf.drop 3).length = buf.length - 3 := List.length_drop 3 buf
            apply ih
            · rw [List.length_append]; omega
            · rw [List.length_append]; omega
            · rw [List.length_append]; omega
          · exact absurd h8 h4
        · rfl

/-- C19. For every `buflen ≥ 1`, every chunk source and every state of it,
`ddcci_caps` returns (the iteration bound of the embedding is never reached,
and any larger bound gives the same result) after at least one and at most
`buflen` chunk requests, and the bytes it stores, the terminating NUL
included, go to indices below `buflen`. A source that keeps answering with
valid one-byte chunks is stopped by `Buffer too small` after `buflen`
requests. -/
theorem ddcci_caps_terminates {σ : Type} (raw_caps : σ → Nat → Option (List Nat) × σ)
    (buflen : Nat) (st : σ) (hbuf : 1 ≤ buflen) :
    (ddcci_caps raw_caps buflen st).ret ≠ .fuel ∧
    (∀ fuel, buflen ≤ fuel →
      caps_loop raw_caps buflen fuel st 0 [] [] = ddcci_caps raw_caps buflen st) ∧
    1 ≤ (ddcci_caps raw_caps buflen st).reqs.length ∧
    (ddcci_caps raw_caps buflen st).reqs.length ≤ buflen ∧
    (ddcci_caps raw_caps buflen st).buffer.length ≤ buflen ∧
    (ddcci_caps (chunk_source (fun _ off => some [0xe3, off / 256, off % 256, 0x41])) 4 0).ret
      = .bufferTooSmall ∧
    (ddcci_caps (chunk_source (fun _ off => some [0xe3, off / 256, off % 256, 0x41])) 4 0).reqs
      = [0, 1, 2, 3] := by
  have h := caps_loop_bounds raw_caps buflen (buflen + 1) st 0 [] []
    (by simpa using hbuf) (by simp)
  simp only [List.length_nil, Nat.zero_add, Nat.sub_zero] at h
  refine ⟨h.1, ?_, h.2.2.1, h.2.1, h.2.2.2, by rfl, by rfl⟩
  intro fuel hf
  exact caps_loop_fuel raw_caps buflen fuel (buflen + 1) st 0 [] []
    (by simpa using hbuf) (by simpa using hf) (by simp)

theorem ddcci_caps_terminates_witness :
    (ddcci_caps (chunk_source caps_source_32_32_1) 256 0).reqs.length ≤ 256 :=
  (ddcci_caps_terminates (chunk_source caps_source_32_32_1) 256 0 (by decide)).2.2.2.1

theorem ddcci_raw_caps_write (mon : monitor) (offset len : Nat) (io : Exchange) :
    (ddcci_raw_caps mon offset len io).write
      = ddcci_write mon [0xf3, (offset >>> 8) % 256, offset &&& 255] io.clockW io.ioctlW := by
  unfold ddcci_raw_caps
  dsimp only
  split_ifs <;> rfl

theorem caps_reply_shape (buf : List Nat) (offset : Nat)
    (h : ¬ (buf.length < 3 ∨ buf.getD 0 0 ≠ DDCCI_REPLY_CAPS ∨
      buf.getD 1 0 * 256 + buf.getD 2 0 ≠ offset)) :
    ∃ b1 b2, b1 * 256 + b2 = offset ∧ buf = 0xe3 :: b1 :: b2 :: buf.drop 3 := by
  match buf, h with
  | [], h => exact absurd (Or.inl (by simp)) h
  | [_], h => exact absurd (Or.inl (by simp)) h
  | [_, _], h => exact absurd (Or.inl (by simp)) h
  | b0 :: b1 :: b2 :: rest, h =>
    simp only [List.getD_cons_zero, List.getD_cons_succ, DDCCI_REPLY_CAPS] at h
    have h0 : b0 = 0xe3 := by
      by_contra hc
      exact h (Or.inr (Or.inl hc))
    have h12 : b1 * 256 + b2 = offset := by
      by_contra hc
      exact h (Or.inr (Or.inr hc))
    exact ⟨b1, b2, h12, by rw [h0]; rfl⟩

/-- What a successful run of the loop of `ddcci_caps` has seen, for a buffer
of at least one byte: well-formed chunks `cs` at the running offsets, then an
empty one; their contents are what was appended. -/
theorem caps_loop_success (src : Nat → Nat → Option (List Nat)) (buflen : Nat) :
    ∀ (fuel k offset : Nat) (buffer reqs : List Nat) (n : Nat),
    buffer.length < buflen →
    (caps_loop (chunk_source src) buflen fuel k offset buffer reqs).ret = .ok n →
    ∃ cs : List (List Nat),
      (∀ c ∈ cs, c ≠ []) ∧
      (caps_loop (chunk_source src) buflen fuel k offset buffer reqs).reqs
        = reqs ++ (List.range (cs.length + 1)).map (fun j => offset + chunk_offset cs j) ∧
      (∀ j, j ≤ cs.length → ∃ b1 b2, b1 * 256 + b2 = offset + chunk_offset cs j ∧
        src (k + j) (offset + chunk_offset cs j) = some (0xe3 :: b1 :: b2 :: cs.getD j [])) ∧
      (caps_loop (chunk_source src) buflen fuel k offset buffer reqs).buffer
        = buffer ++ cs.flatten ++ [0] ∧
      n = buffer.length + cs.flatten.length ∧ n < buflen := by
  intro fuel
  induction fuel with
  | zero =>
    intro k offset buffer reqs n _ h
    simp only [caps_loop] at h
    cases h
  | succ fuel ih =>
    intro k offset buffer reqs n hb h
    unfold caps_loop at h ⊢
    simp only [chunk_source] at h ⊢
    cases hs : src k offset with
    | none =>
      rw [hs] at h
      cases h
    | some buf =>
      rw [hs] at h
      dsimp only at h ⊢
      by_cases h1 : buf.length < 3 ∨ buf.getD 0 0 ≠ DDCCI_REPLY_CAPS ∨
          buf.getD 1 0 * 256 + buf.getD 2 0 ≠ offset
      · rw [if_pos h1] at h
        cases h
      · rw [if_neg h1] at h ⊢
        obtain ⟨b1, b2, h12, hshape⟩ := caps_reply_shape buf offset h1
        have hd : (buf.drop 3).length = buf.length - 3 := List.length_drop 3 buf
        rcases caps_copy_spec buflen (buf.drop 3) buffer hb with ⟨h4, h5, h6⟩ | ⟨h4, _, _⟩
        · have h2 : ¬ (caps_copy buflen (buf.drop 3) buffer).2 = false := by
            rw [h4]; decide
          rw [if_neg h2] at h ⊢
          rw [h5] at h ⊢
          dsimp only at h ⊢
          by_cases h3 : buf.length > 3
          · rw [if_pos h3] at h ⊢
            have hne : buf.drop 3 ≠ [] := by
              intro hc
              rw [hc] at hd
              simp only [List.length_nil] at hd
              omega
            obtain ⟨cs, hcs, hreq, hsrc, hbuf, hn, hlt⟩ :=
              ih (k + 1) (offset + (buf.length - 3)) (buffer ++ buf.drop 3) (reqs ++ [offset]) n
                (by rw [List.length_append]; omega) h
            refine ⟨buf.drop 3 :: cs, ?_, ?_, ?_, ?_, ?_, hlt⟩
            · intro c hc
              rcases List.mem_cons.mp hc with rfl | hc
              · exact hne
              · exact hcs c hc
            · rw [hreq, List.length_cons, List.range_succ_eq_map (cs.length + 1), List.map_cons,
                List.map_map, chunk_offset_zero, Nat.add_zero, List.append_assoc,
                List.singleton_append]
              congr 2
              apply List.map_congr_left
              intro j _
              simp only [Function.comp, chunk_offset_succ, hd]
              omega
            · intro j hj
              cases j with
              | zero =>
                refine ⟨b1, b2, ?_, ?_⟩
                · rw [chunk_offset_zero]; omega
                · rw [chunk_offset_zero, Nat.add_zero, Nat.add_zero, hs, List.getD_cons_zero]
                  exact congrArg some hshape
              | succ j =>
                obtain ⟨a1, a2, ha, hsj⟩ := hsrc j (by simpa using hj)
                refine ⟨a1, a2, ?_, ?_⟩
                · rw [chunk_offset_succ, hd]; omega
                · rw [chunk_offset_succ, List.getD_cons_succ, hd]
                  have e1 : k + (j + 1) = k + 1 + j := by omega
                  have e2 : offset + (buf.length - 3 + chunk_offset cs j)
                      = offset + (buf.length - 3) + chunk_offset cs j := by omega
                  rw [e1, e2]
                  exact hsj
            · rw [hbuf, List.flatten_cons]
              simp only [List.append_assoc]
            · rw [hn, List.flatten_cons, List.length_append, List.length_append]
              omega
          · rw [if_neg h3] at h ⊢
            have hnil : buf.drop 3 = [] := List.drop_eq_nil_of_le (by omega)
            rw [hnil, List.append_nil] at h ⊢
            have hn : n = buffer.length := by
              have h' : CapsRet.ok buffer.length = CapsRet.ok n := h
              injection h' with h'
              exact h'.symm
            refine ⟨[], by simp, ?_, ?_, ?_, ?_, ?_⟩
            · have e : List.range 1 = [0] := rfl
              simp only [List.length_nil, Nat.zero_add, e, List.map_cons, List.map_nil,
                chunk_offset_zero, Nat.add_zero]
            · intro j hj
              have hj0 : j = 0 := by simpa using hj
              subst hj0
              refine ⟨b1, b2, ?_, ?_⟩
              · rw [chunk_offset_zero]; omega
              · rw [chunk_offset_zero, Nat.add_zero, Nat.add_zero, hs, List.getD_nil]
                rw [hnil] at hshape
                exact congrArg some hshape
            · simp
            · simp [hn]
            · omega
        · rw [if_pos h4] at h
          cases h

/-- C17 (the code at the failing input). With `buflen = 0` and a source whose
first chunk is well formed and empty, `ddcci_caps` succeeds with result 0 and
stores the terminating NUL at index 0 of a buffer of no bytes: the result is
not below `buflen`. -/
theorem ddcci_caps_zero_buflen :
    (ddcci_caps (chunk_source (fun _ _ => some [0xe3, 0, 0])) 0 0).ret = .ok 0 ∧
    (ddcci_caps (chunk_source (fun _ _ => some [0xe3, 0, 0])) 0 0).buffer = [0] ∧
    ¬ ((0 : Nat) < 0) := by
  refine ⟨by rfl, by rfl, by decide⟩

/-- With a buffer of at least one byte the assembly is as claimed: a
successful `ddcci_caps` with result `n` has asked for the running offsets of
well-formed chunks `cs` and of a final empty one, has stored their contents in
order followed by a NUL, and `n` is their total length, below `buflen`. -/
theorem ddcci_caps_assembly (src : Nat → Nat → Option (List Nat)) (buflen n : Nat)
    (hbuf : 1 ≤ buflen) (h : (ddcci_caps (chunk_source src) buflen 0).ret = .ok n) :
    ∃ cs : List (List Nat),
      (∀ c ∈ cs, c ≠ []) ∧
      (ddcci_caps (chunk_source src) buflen 0).reqs
        = (List.range (cs.length + 1)).map (chunk_offset cs) ∧
      (∀ k, k ≤ cs.length → ∃ b1 b2, b1 * 256 + b2 = chunk_offset cs k ∧
        src k (chunk_offset cs k) = some (0xe3 :: b1 :: b2 :: cs.getD k [])) ∧
      (ddcci_caps (chunk_source src) buflen 0).buffer = cs.flatten ++ [0] ∧
      n = cs.flatten.length ∧ n < buflen := by
  obtain ⟨cs, hcs, hreq, hsrc, hb, hn, hlt⟩ :=
    caps_loop_success src buflen (buflen + 1) 0 0 [] [] n (by simpa using hbuf) h
  refine ⟨cs, hcs, ?_, ?_, ?_, ?_, hlt⟩
  · show (caps_loop (chunk_source src) buflen (buflen + 1) 0 0 [] []).reqs = _
    rw [hreq]
    simp
  · intro k hk
    obtain ⟨b1, b2, h12, hs⟩ := hsrc k hk
    exact ⟨b1, b2, by omega, by simpa using hs⟩
  · show (caps_loop (chunk_source src) buflen (buflen + 1) 0 0 [] []).buffer = _
    rw [hb]
    simp
  · simpa using hn

/-- Any chunk whose read fails, whose opcode is not 0xe3 or whose echoed
offset differs from the running offset makes the loop of `ddcci_caps` fail. -/
theorem caps_loop_bad_chunk {σ : Type} (raw_caps : σ → Nat → Option (List Nat) × σ)
    (buflen fuel : Nat) (st st1 : σ) (offset : Nat) (buffer reqs : List Nat) :
    (raw_caps st offset = (none, st1) →
      (caps_loop raw_caps buflen (fuel + 1) st offset buffer reqs).ret = .readFailed) ∧
    (∀ buf, raw_caps st offset = (some buf, st1) →
      (buf.getD 0 0 ≠ 0xe3 ∨ buf.getD 1 0 * 256 + buf.getD 2 0 ≠ offset) →
      (caps_loop raw_caps buflen (fuel + 1) st offset buffer reqs).ret = .invalidSequence) := by
  constructor
  · intro h
    unfold caps_loop
    simp only [h]
  · intro buf h hbad
    have hc : buf.length < 3 ∨ buf.getD 0 0 ≠ DDCCI_REPLY_CAPS ∨
        buf.getD 1 0 * 256 + buf.getD 2 0 ≠ offset := by
      rcases hbad with hb | hb
      · exact Or.inr (Or.inl hb)
      · exact Or.inr (Or.inr hb)
    unfold caps_loop
    simp only [h]
    rw [if_pos hc]

end Ddcci
